import Mathlib

/-!
Verification of the ezansi-platform-core dispatch core: a shallow embedding of
the Contract parser (`contracts.py`), the Overrides loader (`overrides.py`),
the Capability Registry (`registry.py`), the Request Router (`router.py`, up to
the outbound HTTP call), and the Resource Validator (`validator.py`).

Python runtime values (the results of `json.loads` / `yaml.safe_load`, and the
request bodies the router consumes) are modelled by the inductive type `PyVal`;
numbers are modelled as integers (the repository only manipulates integral
quantities).  Python dictionaries are modelled as association lists in
insertion order, with first-match lookup and overwrite-in-place assignment,
matching CPython dict semantics for the unique-key dictionaries the code
builds.  Code that can raise is modelled in the `Except` monad; an `Except`
error models a Python exception escaping the modelled function.
-/

namespace Ezansi

/-- Python runtime value, as produced by `json.loads` or `yaml.safe_load`.
Object entries keep insertion order; keys are arbitrary values because YAML
mappings (unlike JSON objects) may have non-string keys. -/
inductive PyVal where
  | null
  | bool (b : Bool)
  | num (n : Int)
  | str (s : String)
  | arr (xs : List PyVal)
  | obj (kvs : List (PyVal × PyVal))

/-- single-quote character, used to render Python `repr`/exception text. -/
def squote : String := String.mk [Char.ofNat 39]

mutual

/-- Python `repr()` of a value (`str()` for every type except `str`). -/
def pyRepr : PyVal → String
  | .null => "None"
  | .bool true => "True"
  | .bool false => "False"
  | .num n => toString n
  | .str s => squote ++ s ++ squote
  | .arr xs => "[" ++ pyReprSeq xs ++ "]"
  | .obj kvs => "\x7b" ++ pyReprPairs kvs ++ "\x7d"

/-- comma-separated `repr` of list elements. -/
def pyReprSeq : List PyVal → String
  | [] => ""
  | [x] => pyRepr x
  | x :: xs => pyRepr x ++ ", " ++ pyReprSeq xs

/-- comma-separated `repr` of dict entries. -/
def pyReprPairs : List (PyVal × PyVal) → String
  | [] => ""
  | [(k, v)] => pyRepr k ++ ": " ++ pyRepr v
  | (k, v) :: kvs => pyRepr k ++ ": " ++ pyRepr v ++ ", " ++ pyReprPairs kvs

end

/-- Python `str()` of a value. -/
def pyStr : PyVal → String
  | .str s => s
  | v => pyRepr v

/-- Python truthiness of a value. -/
def pyTruthy : PyVal → Bool
  | .null => false
  | .bool b => b
  | .num n => n != 0
  | .str s => s != ""
  | .arr xs => !xs.isEmpty
  | .obj kvs => !kvs.isEmpty

/-- Python `x or d` for an integer default `d` (used as `value or 0`). -/
def pyOr (v : PyVal) (d : PyVal) : PyVal :=
  if pyTruthy v then v else d

/-- Python `int(v)`: exact for ints and bools, parses integer strings, and
raises (`Except.error`) on `None`, containers, and non-numeric strings. -/
def pyInt : PyVal → Except String Int
  | .num n => .ok n
  | .bool true => .ok 1
  | .bool false => .ok 0
  | .str s =>
      match s.toInt? with
      | some n => .ok n
      | none => .error ("ValueError: invalid literal for int() with base 10: " ++ pyRepr (.str s))
  | .null => .error "TypeError: int() argument must not be None"
  | .arr _ => .error "TypeError: int() argument must not be a list"
  | .obj _ => .error "TypeError: int() argument must not be a dict"

/-- lookup in a Python dict with arbitrary keys: `d.get(k)` for a string key
`k`, returning the first entry whose key is the string `k`. -/
def pyGet (kvs : List (PyVal × PyVal)) (k : String) : Option PyVal :=
  match kvs with
  | [] => none
  | (.str k0, v) :: rest => if k0 = k then some v else pyGet rest k
  | _ :: rest => pyGet rest k

/-- membership test `k in d` for a string key on a Python dict. -/
def pyHasKey (kvs : List (PyVal × PyVal)) (k : String) : Bool :=
  (pyGet kvs k).isSome

/-- lookup in a string-keyed dict (`d.get(k)`). -/
def dictGet {α : Type} (d : List (String × α)) (k : String) : Option α :=
  match d with
  | [] => none
  | (k0, v) :: rest => if k0 = k then some v else dictGet rest k

/-- assignment `d[k] = v` on a string-keyed dict: overwrite in place if the
key exists, else append. -/
def dictSet {α : Type} (d : List (String × α)) (k : String) (v : α) : List (String × α) :=
  match d with
  | [] => [(k, v)]
  | (k0, v0) :: rest => if k0 = k then (k, v) :: rest else (k0, v0) :: dictSet rest k v

/-- Python `d.setdefault(k, []).append(n)` on a dict of string lists. -/
def dictAppend (d : List (String × List String)) (k : String) (n : String) :
    List (String × List String) :=
  dictSet d k (((dictGet d k).getD []) ++ [n])

@[simp] theorem dictGet_nil {α : Type} (k : String) : dictGet ([] : List (String × α)) k = none := rfl

theorem dictGet_dictSet {α : Type} (d : List (String × α)) (k k' : String) (v : α) :
    dictGet (dictSet d k v) k' = if k = k' then some v else dictGet d k' := by
  induction d with
  | nil =>
      by_cases h : k = k' <;> simp [dictSet, dictGet, h]
  | cons hd tl ih =>
      obtain ⟨k0, v0⟩ := hd
      by_cases h0 : k0 = k
      · subst h0
        by_cases h : k0 = k' <;> simp [dictSet, dictGet, h]
      · by_cases h1 : k0 = k'
        · subst h1
          have hk : ¬ k = k0 := fun h => h0 h.symm
          simp [dictSet, dictGet, h0, hk]
        · simp [dictSet, dictGet, h0, h1, ih]

theorem dictGet_mem {α : Type} {d : List (String × α)} {k : String} {v : α}
    (h : dictGet d k = some v) : (k, v) ∈ d := by
  induction d with
  | nil => simp [dictGet] at h
  | cons hd tl ih =>
      obtain ⟨k0, v0⟩ := hd
      simp only [dictGet] at h
      by_cases h0 : k0 = k
      · subst h0; simp only [if_pos rfl] at h
        cases h; exact List.mem_cons_self _ _
      · simp only [if_neg h0] at h
        exact List.mem_cons_of_mem _ (ih h)

/-- membership in the value list stored under `k` (empty when `k` is absent). -/
def provMem (d : List (String × List String)) (k : String) (n : String) : Prop :=
  n ∈ (dictGet d k).getD []

instance (d : List (String × List String)) (k n : String) : Decidable (provMem d k n) := by
  unfold provMem; infer_instance

theorem provMem_dictAppend (d : List (String × List String)) (k k' n n' : String) :
    provMem (dictAppend d k n) k' n' ↔ provMem d k' n' ∨ (k = k' ∧ n = n') := by
  unfold provMem dictAppend
  rw [dictGet_dictSet]
  by_cases h : k = k'
  · subst h
    rw [if_pos rfl]
    simp only [Option.getD_some, List.mem_append, List.mem_singleton]
    constructor
    · rintro (h1 | h1)
      · exact Or.inl h1
      · exact Or.inr ⟨by trivial, h1.symm⟩
    · rintro (h1 | ⟨-, rfl⟩)
      · exact Or.inl h1
      · exact Or.inr rfl
  · simp only [if_neg h]
    constructor
    · exact Or.inl
    · rintro (h1 | ⟨rfl, rfl⟩)
      · exact h1
      · exact absurd rfl h

/-- Boolean lexicographic comparison of character lists, deciding `List.lt`. -/
def listLtB : List Char → List Char → Bool
  | _, [] => false
  | [], _ :: _ => true
  | a :: as, b :: bs => if a < b then true else if b < a then false else listLtB as bs

/-- kernel-computable string comparison deciding `<`. -/
def strLtB (s1 s2 : String) : Bool := listLtB s1.toList s2.toList

theorem listLtB_iff : ∀ l1 l2 : List Char, listLtB l1 l2 = true ↔ l1 < l2
  | l1, [] => by
      constructor
      · intro h
        cases l1 <;> simp [listLtB] at h
      · intro h
        cases h
  | [], b :: bs => by
      constructor
      · intro _
        exact List.Lex.nil
      · intro _
        rfl
  | a :: as, b :: bs => by
      by_cases hab : a < b
      · constructor
        · intro _
          exact List.Lex.rel hab
        · intro _
          simp [listLtB, hab]
      · by_cases heq : a = b
        · subst heq
          rw [show listLtB (a :: as) (a :: bs) = listLtB as bs from by simp [listLtB, hab]]
          rw [listLtB_iff as bs]
          constructor
          · intro h
            exact List.Lex.cons h
          · intro h
            cases h with
            | cons h3 => exact h3
            | rel h' => exact absurd h' hab
        · have hba : b < a := by
            rcases lt_trichotomy a b with h | h | h
            · exact absurd h hab
            · exact absurd h heq
            · exact h
          constructor
          · intro h
            simp [listLtB, hab, hba] at h
          · intro h
            cases h with
            | cons h3 => exact absurd rfl heq
            | rel h' => exact absurd h' hab

theorem strLtB_iff (s1 s2 : String) : strLtB s1 s2 = true ↔ s1 < s2 := by
  rw [String.lt_iff_toList_lt]
  exact listLtB_iff s1.toList s2.toList

/-- insert a string into a strictly sorted list, dropping it if already
present; building block of Python `sorted(set(xs))`. -/
def insertSorted (x : String) : List String → List String
  | [] => [x]
  | y :: ys =>
      if strLtB x y then x :: y :: ys else if x = y then y :: ys else y :: insertSorted x ys

/-- Python `sorted(set(xs))` for a list of strings: the strictly increasing
enumeration of the distinct elements. -/
def sortedDedupStr (xs : List String) : List String := xs.foldr insertSorted []

/-- insertion step of Python `sorted(xs)` (no deduplication). -/
def insertLe (x : String) : List String → List String
  | [] => [x]
  | y :: ys => if x ≤ y then x :: y :: ys else y :: insertLe x ys

/-- Python `sorted(xs)` for a list of strings. -/
def pySorted (xs : List String) : List String := xs.foldr insertLe []

/-- Python `s.rstrip("/")`: remove every trailing slash. -/
def rstripSlash (s : String) : String :=
  String.mk ((s.toList.reverse.dropWhile (fun c => c = '/')).reverse)

theorem mem_insertSorted (x a : String) (l : List String) :
    a ∈ insertSorted x l ↔ a = x ∨ a ∈ l := by
  induction l with
  | nil => simp [insertSorted]
  | cons y ys ih =>
      by_cases h1 : strLtB x y = true
      · simp [insertSorted, h1]
      · by_cases h2 : x = y
        · subst h2
          simp [insertSorted, h1]
        · simp only [insertSorted, if_neg h1, if_neg h2, List.mem_cons, ih]
          tauto

theorem sorted_insertSorted (x : String) (l : List String)
    (hl : l.Sorted (· < ·)) : (insertSorted x l).Sorted (· < ·) := by
  induction l with
  | nil => simp [insertSorted]
  | cons y ys ih =>
      rw [List.sorted_cons] at hl
      obtain ⟨hy, hys⟩ := hl
      by_cases h1 : strLtB x y = true
      · have hxy : x < y := (strLtB_iff x y).mp h1
        rw [insertSorted, if_pos h1, List.sorted_cons]
        refine ⟨?_, ?_⟩
        · intro b hb
          rcases List.mem_cons.mp hb with rfl | hb
          · exact hxy
          · exact lt_trans hxy (hy b hb)
        · rw [List.sorted_cons]; exact ⟨hy, hys⟩
      · by_cases h2 : x = y
        · rw [insertSorted, if_neg h1, if_pos h2, List.sorted_cons]
          exact ⟨hy, hys⟩
        · have hyx : y < x := by
            have hnxy : ¬ x < y := fun hlt => h1 ((strLtB_iff x y).mpr hlt)
            rcases lt_trichotomy x y with h | h | h
            · exact absurd h hnxy
            · exact absurd h h2
            · exact h
          rw [insertSorted, if_neg h1, if_neg h2, List.sorted_cons]
          refine ⟨?_, ih hys⟩
          intro b hb
          rcases (mem_insertSorted x b ys).mp hb with rfl | hb
          · exact hyx
          · exact hy b hb

theorem mem_sortedDedupStr (a : String) (xs : List String) :
    a ∈ sortedDedupStr xs ↔ a ∈ xs := by
  induction xs with
  | nil => simp [sortedDedupStr]
  | cons x xs ih =>
      simp only [sortedDedupStr, List.foldr_cons, List.mem_cons]
      rw [mem_insertSorted]
      simp only [sortedDedupStr] at ih
      rw [ih]

theorem sorted_sortedDedupStr (xs : List String) :
    (sortedDedupStr xs).Sorted (· < ·) := by
  induction xs with
  | nil => simp [sortedDedupStr]
  | cons x xs ih => exact sorted_insertSorted x _ ih

theorem nodup_of_sorted_lt {l : List String} (h : l.Sorted (· < ·)) : l.Nodup :=
  List.Pairwise.imp (fun hab => ne_of_lt hab) h

theorem head_min_of_sorted_lt {n : String} {rest : List String}
    (h : (n :: rest).Sorted (· < ·)) : ∀ m ∈ n :: rest, n ≤ m := by
  rw [List.sorted_cons] at h
  intro m hm
  rcases List.mem_cons.mp hm with rfl | hm
  · exact le_refl m
  · exact le_of_lt (h.1 m hm)

theorem sorted_lt_eq_of_mem_iff : ∀ (l1 l2 : List String), l1.Sorted (· < ·) →
    l2.Sorted (· < ·) → (∀ a, a ∈ l1 ↔ a ∈ l2) → l1 = l2
  | [], [], _, _, _ => rfl
  | [], b :: l2, _, _, hm => absurd ((hm b).mpr (List.mem_cons_self b l2)) (List.not_mem_nil b)
  | a :: l1, [], _, _, hm => absurd ((hm a).mp (List.mem_cons_self a l1)) (List.not_mem_nil a)
  | a :: l1, b :: l2, h1, h2, hm => by
      rw [List.sorted_cons] at h1 h2
      have hab : a = b := by
        rcases List.mem_cons.mp ((hm a).mp (List.mem_cons_self a l1)) with h | h
        · exact h
        · rcases List.mem_cons.mp ((hm b).mpr (List.mem_cons_self b l2)) with h' | h'
          · exact h'.symm
          · exact absurd (lt_trans (h2.1 a h) (h1.1 b h')) (lt_irrefl b)
      subst hab
      have htl : ∀ c, c ∈ l1 ↔ c ∈ l2 := by
        intro c
        constructor
        · intro hc
          rcases List.mem_cons.mp ((hm c).mp (List.mem_cons_of_mem a hc)) with rfl | h
          · exact absurd (h1.1 c hc) (lt_irrefl c)
          · exact h
        · intro hc
          rcases List.mem_cons.mp ((hm c).mpr (List.mem_cons_of_mem a hc)) with rfl | h
          · exact absurd (h2.1 c hc) (lt_irrefl c)
          · exact h
      rw [sorted_lt_eq_of_mem_iff l1 l2 h1.2 h2.2 htl]

/-! ## Contract parser (`contracts.py`) -/

/-- contract `api` block: endpoint with trailing slash stripped, plus the
health-check path. -/
structure CapabilityApi where
  endpoint : String
  health_check : String
deriving DecidableEq

/-- named operation of a contract: HTTP method (uppercased) and path template. -/
structure CapabilityEndpoint where
  method : String
  path : String
deriving DecidableEq

/-- parsed, immutable capability contract. -/
structure CapabilityContract where
  name : String
  version : String
  description : String
  provides : List String
  api : Option CapabilityApi
  endpoints : List (String × CapabilityEndpoint)
  resources : List (PyVal × PyVal)
  raw : PyVal

/-- `_as_str(value, default)` from `contracts.py`: `None` maps to the default,
strings pass through, anything else is rendered with `str()`. -/
def asStr (value : PyVal) (dflt : String) : String :=
  match value with
  | .null => dflt
  | .str s => s
  | v => pyStr v

/-- Python `s.upper()` for the ASCII method names the contracts use. -/
def pyUpper (s : String) : String := String.mk (s.toList.map Char.toUpper)

/-- error message raised by `parse_contract` on a missing mandatory field. -/
def invalidContractMsg : String :=
  "Invalid capability contract: missing required fields (name/version/provides)"

/-- `provides` coercion: `data.get("provides") or []`, wrap a non-list scalar,
stringify entries, drop the empty ones. -/
def parseProvides (v : PyVal) : List String :=
  let pv := if pyTruthy v then v else .arr []
  let items := match pv with
    | .arr xs => xs
    | other => [other]
  (items.map (fun p => asStr p "")).filter (fun s => s ≠ "")

/-- `api` block parsing: requires a mapping with a non-empty `endpoint`
(trailing slashes stripped); `health_check` defaults to `/health`. -/
def parseApi (block : Option PyVal) : Option CapabilityApi :=
  match block with
  | some (.obj ab) =>
      let endpoint := asStr ((pyGet ab "endpoint").getD .null) ""
      let health_check := asStr ((pyGet ab "health_check").getD (.str "/health")) ""
      if endpoint ≠ "" then some ⟨rstripSlash endpoint, health_check⟩ else none
  | _ => none

/-- `resources` is kept as-is when it is a mapping, else replaced by `{}`. -/
def parseResources (v : Option PyVal) : List (PyVal × PyVal) :=
  match v with
  | some (.obj kvs) => kvs
  | _ => []

/-- one iteration of the `endpoints` parsing loop: the entry needs a string
name, a mapping value and a non-empty `path`; `method` defaults to `POST` and
is uppercased; an entry failing the checks is skipped silently. -/
def endpointStep (acc : List (String × CapabilityEndpoint)) (kv : PyVal × PyVal) :
    List (String × CapabilityEndpoint) :=
  match kv with
  | (.str ename, .obj espec) =>
      let method := pyUpper (asStr ((pyGet espec "method").getD (.str "POST")) "POST")
      let path := asStr ((pyGet espec "path").getD .null) ""
      if path ≠ "" then dictSet acc ename ⟨method, path⟩ else acc
  | _ => acc

/-- `endpoints` parsing over the whole block. -/
def parseEndpoints (block : Option PyVal) : List (String × CapabilityEndpoint) :=
  match block with
  | some (.obj eb) => eb.foldl endpointStep []
  | _ => []

/-- `parse_contract` from `contracts.py`.  A non-mapping document models the
`AttributeError` the Python code would raise on `data.get`; a mapping document
is rejected exactly when `name`, `version` or `provides` is empty after
coercion. -/
def parse_contract (data : PyVal) : Except String CapabilityContract :=
  match data with
  | .obj kvs =>
      let name := asStr ((pyGet kvs "name").getD .null) ""
      let version := asStr ((pyGet kvs "version").getD .null) ""
      let description := asStr ((pyGet kvs "description").getD .null) ""
      let provides := parseProvides ((pyGet kvs "provides").getD .null)
      let api := parseApi (pyGet kvs "api")
      let resources := parseResources (pyGet kvs "resources")
      let endpoints := parseEndpoints (pyGet kvs "endpoints")
      if name = "" ∨ version = "" ∨ provides = [] then .error invalidContractMsg
      else .ok ⟨name, version, description, provides, api, endpoints, resources, data⟩
  | _ => .error "AttributeError: object has no attribute get"

/-! ## Overrides loader (`overrides.py`) -/

/-- per-capability override entry; the fields hold the raw mapping values
(`null` models Python `None`, also used for an absent key). -/
structure CapabilityOverride where
  endpoint : PyVal
  health_check : PyVal

/-- operator-supplied overrides: per-capability endpoint/health-check
replacements and type-alias rewrites. -/
structure Overrides where
  capabilities : List (String × CapabilityOverride)
  provides_aliases : List (String × String)

/-- state of the optional overrides file as observed by `load_overrides`. -/
inductive OverridesSource where
  | noPath
  | fileMissing
  | badYaml
  | parsed (raw : PyVal)

/-- overrides value with no capability overrides and no aliases. -/
def emptyOverrides : Overrides := ⟨[], []⟩

/-- one iteration over the `capabilities` block: the entry needs a string key
and a mapping value; `endpoint` and `health_check` are taken as-is. -/
def capStep (acc : List (String × CapabilityOverride)) (kv : PyVal × PyVal) :
    List (String × CapabilityOverride) :=
  match kv with
  | (.str name, .obj value) =>
      dictSet acc name
        ⟨(pyGet value "endpoint").getD .null, (pyGet value "health_check").getD .null⟩
  | _ => acc

/-- one iteration over the `provides_aliases` block: the entry needs non-empty
string key and value. -/
def aliasStep (acc : List (String × String)) (kv : PyVal × PyVal) : List (String × String) :=
  match kv with
  | (.str ali, .str canon) => if ali ≠ "" ∧ canon ≠ "" then dictSet acc ali canon else acc
  | _ => acc

/-- the `capabilities` block processed when it is a mapping, else empty. -/
def parseCapOverrides (v : Option PyVal) : List (String × CapabilityOverride) :=
  match v with
  | some (.obj cs) => cs.foldl capStep []
  | _ => []

/-- the `provides_aliases` block processed when it is a mapping, else empty. -/
def parseAliases (v : Option PyVal) : List (String × String) :=
  match v with
  | some (.obj als) => als.foldl aliasStep []
  | _ => []

/-- `load_overrides` from `overrides.py`.  An absent path or missing file
yields the empty overrides; a file whose YAML parsing fails models the
uncaught `yaml.YAMLError`; a parsed non-mapping document yields the empty
overrides; entries failing the per-entry shape checks are skipped. -/
def load_overrides (src : OverridesSource) : Except String Overrides :=
  match src with
  | .noPath => .ok emptyOverrides
  | .fileMissing => .ok emptyOverrides
  | .badYaml => .error "yaml.YAMLError: could not parse overrides file"
  | .parsed raw =>
      match raw with
      | .obj kvs =>
          .ok ⟨parseCapOverrides (pyGet kvs "capabilities"),
               parseAliases (pyGet kvs "provides_aliases")⟩
      | _ => .ok emptyOverrides

/-! ## Capability registry (`registry.py`) -/

/-- registry record: a parsed contract plus the effective endpoint and
health-check (mutable runtime telemetry initialised to its defaults). -/
structure CapabilityRecord where
  contract : CapabilityContract
  api_endpoint : Option String
  health_check : Option String
  status : String

/-- registry snapshot: name index and type index. -/
structure RegistryState where
  records_by_name : List (String × CapabilityRecord)
  providers_by_type : List (String × List String)

/-- `_normalize_type`: rewrite an alias to its canonical type. -/
def normalizeType (ov : Overrides) (service_type : String) : String :=
  (dictGet ov.provides_aliases service_type).getD service_type

/-- record construction during the rebuild: start from the contract `api`
block, then apply a per-name override when present, each field only when
truthy (an overriding endpoint is trailing-slash-stripped). -/
def mkRecord (ov : Overrides) (c : CapabilityContract) : CapabilityRecord :=
  let endpoint0 := c.api.map (fun a => a.endpoint)
  let health0 := c.api.map (fun a => a.health_check)
  match dictGet ov.capabilities c.name with
  | none => ⟨c, endpoint0, health0, "unknown"⟩
  | some o =>
      let endpoint := if pyTruthy o.endpoint then some (rstripSlash (pyStr o.endpoint)) else endpoint0
      let health := if pyTruthy o.health_check then some (pyStr o.health_check) else health0
      ⟨c, endpoint, health, "unknown"⟩

/-- index a contract under every provided type and under each type's
alias-normalized form. -/
def indexProvides (ov : Overrides) (cname : String) (provides : List String)
    (pbt : List (String × List String)) : List (String × List String) :=
  provides.foldl (fun acc p => dictAppend (dictAppend acc p cname) (normalizeType ov p) cname) pbt

/-- one iteration of the rebuild loop for a successfully parsed contract. -/
def loadStep (ov : Overrides) (st : RegistryState) (c : CapabilityContract) : RegistryState :=
  ⟨dictSet st.records_by_name c.name (mkRecord ov c),
   indexProvides ov c.name c.provides st.providers_by_type⟩

/-- contracts surviving the scan: a file whose read, JSON decode or contract
validation fails is skipped, never aborting the scan. -/
def parsedContracts (files : List (Except String PyVal)) : List CapabilityContract :=
  files.filterMap (fun e =>
    match e with
    | .error _ => none
    | .ok d =>
        match parse_contract d with
        | .ok c => some c
        | .error _ => none)

/-- rebuild loop starting from a given state. -/
def buildState (ov : Overrides) (cs : List CapabilityContract) (st : RegistryState) : RegistryState :=
  cs.foldl (loadStep ov) st

/-- `CapabilityRegistry.load`: the snapshot after a completed rebuild over the
read/decode results of the discovered contract files (a missing registry root
gives the empty list).  Every provider list is sorted and de-duplicated at the
end; TTL gating is time-based and not modelled. -/
def load (ov : Overrides) (files : List (Except String PyVal)) : RegistryState :=
  let st := buildState ov (parsedContracts files) ⟨[], []⟩
  ⟨st.records_by_name, st.providers_by_type.map (fun kv => (kv.1, sortedDedupStr kv.2))⟩

/-- result shape of `get_by_type`. -/
structure TypeQuery where
  service_type : String
  normalized_type : String
  providers : List String
deriving DecidableEq

/-- provider list merging literal and alias-normalized matches, shared by
`get_by_type` and `resolve_provider` (both compute it identically). -/
def mergedProviders (ov : Overrides) (st : RegistryState) (t : String) : List String :=
  let providers := (dictGet st.providers_by_type t).getD []
  let normalized := normalizeType ov t
  if normalized ≠ t then
    sortedDedupStr (providers ++ (dictGet st.providers_by_type normalized).getD [])
  else providers

/-- `CapabilityRegistry.get_by_type` on a loaded snapshot. -/
def get_by_type (ov : Overrides) (st : RegistryState) (t : String) : TypeQuery :=
  ⟨t, normalizeType ov t, mergedProviders ov st t⟩

/-- `CapabilityRegistry.resolve_provider` on a loaded snapshot: the record of
the first provider of the merged list, or none. -/
def resolve_provider (ov : Overrides) (st : RegistryState) (t : String) : Option CapabilityRecord :=
  match mergedProviders ov st t with
  | [] => none
  | n :: _ => dictGet st.records_by_name n

theorem provMem_indexProvides (ov : Overrides) (cname t n : String) (provides : List String)
    (pbt : List (String × List String)) :
    provMem (indexProvides ov cname provides pbt) t n ↔
      provMem pbt t n ∨ (cname = n ∧ ∃ p ∈ provides, p = t ∨ normalizeType ov p = t) := by
  induction provides generalizing pbt with
  | nil => simp [indexProvides]
  | cons p ps ih =>
      have hstep : indexProvides ov cname (p :: ps) pbt =
          indexProvides ov cname ps (dictAppend (dictAppend pbt p cname) (normalizeType ov p) cname) := rfl
      rw [hstep, ih, provMem_dictAppend, provMem_dictAppend]
      constructor
      · rintro (((hm | ⟨hpt, hcn⟩) | ⟨hpt, hcn⟩) | ⟨hcn, q, hq, hqt⟩)
        · exact Or.inl hm
        · exact Or.inr ⟨hcn, p, List.mem_cons_self p ps, Or.inl hpt⟩
        · exact Or.inr ⟨hcn, p, List.mem_cons_self p ps, Or.inr hpt⟩
        · exact Or.inr ⟨hcn, q, List.mem_cons_of_mem p hq, hqt⟩
      · rintro (hm | ⟨hcn, q, hq, hqt⟩)
        · exact Or.inl (Or.inl (Or.inl hm))
        · rcases List.mem_cons.mp hq with rfl | hq
          · rcases hqt with hqt | hqt
            · exact Or.inl (Or.inl (Or.inr ⟨hqt, hcn⟩))
            · exact Or.inl (Or.inr ⟨hqt, hcn⟩)
          · exact Or.inr ⟨hcn, q, hq, hqt⟩

theorem provMem_buildState (ov : Overrides) (cs : List CapabilityContract) (st : RegistryState)
    (t n : String) :
    provMem (buildState ov cs st).providers_by_type t n ↔
      provMem st.providers_by_type t n ∨
        ∃ c ∈ cs, c.name = n ∧ ∃ p ∈ c.provides, p = t ∨ normalizeType ov p = t := by
  induction cs generalizing st with
  | nil => simp [buildState]
  | cons c cs ih =>
      have hstep : buildState ov (c :: cs) st = buildState ov cs (loadStep ov st c) := rfl
      rw [hstep, ih]
      have hprov : (loadStep ov st c).providers_by_type =
          indexProvides ov c.name c.provides st.providers_by_type := rfl
      rw [hprov, provMem_indexProvides]
      constructor
      · rintro ((hm | ⟨hcn, hp⟩) | ⟨c', hc', hprops⟩)
        · exact Or.inl hm
        · exact Or.inr ⟨c, List.mem_cons_self c cs, hcn, hp⟩
        · exact Or.inr ⟨c', List.mem_cons_of_mem c hc', hprops⟩
      · rintro (hm | ⟨c', hc', hprops⟩)
        · exact Or.inl (Or.inl hm)
        · rcases List.mem_cons.mp hc' with rfl | hc'
          · exact Or.inl (Or.inr hprops)
          · exact Or.inr ⟨c', hc', hprops⟩

theorem records_buildState (ov : Overrides) (cs : List CapabilityContract) (st : RegistryState)
    (n : String) :
    (dictGet (buildState ov cs st).records_by_name n).isSome ↔
      (dictGet st.records_by_name n).isSome ∨ ∃ c ∈ cs, c.name = n := by
  induction cs generalizing st with
  | nil => simp [buildState]
  | cons c cs ih =>
      have hstep : buildState ov (c :: cs) st = buildState ov cs (loadStep ov st c) := rfl
      rw [hstep, ih]
      have hrec : (loadStep ov st c).records_by_name =
          dictSet st.records_by_name c.name (mkRecord ov c) := rfl
      rw [hrec, dictGet_dictSet]
      constructor
      · rintro (hs | ⟨c', hc', hn⟩)
        · by_cases h : c.name = n
          · exact Or.inr ⟨c, List.mem_cons_self c cs, h⟩
          · rw [if_neg h] at hs
            exact Or.inl hs
        · exact Or.inr ⟨c', List.mem_cons_of_mem c hc', hn⟩
      · rintro (hs | ⟨c', hc', hn⟩)
        · by_cases h : c.name = n
          · rw [if_pos h]
            exact Or.inl rfl
          · rw [if_neg h]
            exact Or.inl hs
        · rcases List.mem_cons.mp hc' with rfl | hc'
          · rw [if_pos hn]
            exact Or.inl rfl
          · exact Or.inr ⟨c', hc', hn⟩

theorem dictGet_mapValues {α β : Type} (f : α → β) (d : List (String × α)) (k : String) :
    dictGet (d.map (fun kv => (kv.1, f kv.2))) k = (dictGet d k).map f := by
  induction d with
  | nil => simp [dictGet]
  | cons hd tl ih =>
      obtain ⟨k0, v0⟩ := hd
      by_cases h : k0 = k <;> simp [dictGet, h, ih]

theorem load_providers_eq (ov : Overrides) (files : List (Except String PyVal)) (t : String) :
    dictGet (load ov files).providers_by_type t =
      (dictGet (buildState ov (parsedContracts files) ⟨[], []⟩).providers_by_type t).map
        sortedDedupStr := by
  unfold load
  exact dictGet_mapValues sortedDedupStr _ t

theorem mem_load_providers (ov : Overrides) (files : List (Except String PyVal)) (t n : String) :
    n ∈ (dictGet (load ov files).providers_by_type t).getD [] ↔
      ∃ c ∈ parsedContracts files, c.name = n ∧ ∃ p ∈ c.provides, p = t ∨ normalizeType ov p = t := by
  rw [load_providers_eq]
  have hmem := provMem_buildState ov (parsedContracts files) ⟨[], []⟩ t n
  unfold provMem at hmem
  simp only [dictGet_nil, Option.getD_none, List.not_mem_nil, false_or] at hmem
  rw [← hmem]
  cases dictGet (buildState ov (parsedContracts files) ⟨[], []⟩).providers_by_type t with
  | none => simp
  | some l => simp [mem_sortedDedupStr]

theorem sorted_load_providers (ov : Overrides) (files : List (Except String PyVal)) (t : String) :
    ((dictGet (load ov files).providers_by_type t).getD []).Sorted (· < ·) := by
  rw [load_providers_eq]
  cases dictGet (buildState ov (parsedContracts files) ⟨[], []⟩).providers_by_type t with
  | none => simp
  | some l => exact sorted_sortedDedupStr l

theorem load_records_isSome (ov : Overrides) (files : List (Except String PyVal)) (n : String) :
    (dictGet (load ov files).records_by_name n).isSome ↔
      ∃ c ∈ parsedContracts files, c.name = n := by
  have h := records_buildState ov (parsedContracts files) ⟨[], []⟩ n
  simp only [dictGet_nil, Option.isSome_none, Bool.false_eq_true, false_or] at h
  exact h

theorem mem_mergedProviders (ov : Overrides) (st : RegistryState) (t n : String) :
    n ∈ mergedProviders ov st t ↔
      n ∈ (dictGet st.providers_by_type t).getD [] ∨
        n ∈ (dictGet st.providers_by_type (normalizeType ov t)).getD [] := by
  unfold mergedProviders
  by_cases h : normalizeType ov t ≠ t
  · simp [if_pos h, mem_sortedDedupStr, List.mem_append]
  · push_neg at h
    simp [h]

theorem sorted_mergedProviders (ov : Overrides) (files : List (Except String PyVal)) (t : String) :
    (mergedProviders ov (load ov files) t).Sorted (· < ·) := by
  unfold mergedProviders
  by_cases h : normalizeType ov t ≠ t
  · simp only [if_pos h]
    exact sorted_sortedDedupStr _
  · simp only [if_neg h]
    exact sorted_load_providers ov files t

/-! ## Resource validator (`validator.py`) -/

/-- state of the device-constraints file as observed by `load_constraints`. -/
inductive ConstraintsFile where
  | absent
  | malformed
  | wellFormed (doc : PyVal)

/-- `ResourceValidator.load_constraints`: an absent file yields `{}`; an
existing file is read and JSON-decoded, and a decode failure propagates
uncaught (`json.loads` raises). -/
def load_constraints : ConstraintsFile → Except String PyVal
  | .absent => .ok (.obj [])
  | .malformed => .error "json.decoder.JSONDecodeError: Expecting value"
  | .wellFormed doc => .ok doc

/-- `ram` entry of the `details` breakdown. -/
structure RamReport where
  required_mb : Int
  available_mb : Option Int
  ok : Bool
  headroom_mb : Option Int
deriving DecidableEq

/-- `storage` entry of the `details` breakdown. -/
structure StorageReport where
  required_mb : Int
  available_mb : Option Int
  ok : Bool
deriving DecidableEq

/-- `ValidationResult`, with the `details` mapping flattened into fields. -/
structure ValidationResult where
  compatible : Bool
  ram : RamReport
  storage : StorageReport
  warnings : List String
deriving DecidableEq

/-- `constraints.get(key, \x7b\x7d) if isinstance(constraints, dict) else
\x7b\x7d` for the `memory` and `storage` sections. -/
def sectionOf (constraints : PyVal) (key : String) : PyVal :=
  match constraints with
  | .obj kvs => (pyGet kvs key).getD (.obj [])
  | _ => .obj []

/-- `int(section.get("available_mb", section.get("total_mb", 0)) or 0)`; a
non-mapping section models the `AttributeError` of `section.get`. -/
def sectionAvailMb (s : PyVal) : Except String Int :=
  match s with
  | .obj kvs =>
      pyInt (pyOr ((pyGet kvs "available_mb").getD ((pyGet kvs "total_mb").getD (.num 0))) (.num 0))
  | _ => .error "AttributeError: object has no attribute get"

/-- `int(record.contract.resources.get(key, 0) or 0)`. -/
def recordResourceMb (r : CapabilityRecord) (key : String) : Except String Int :=
  pyInt (pyOr ((pyGet r.contract.resources key).getD (.num 0)) (.num 0))

/-- warning text appended under strict mode on low RAM headroom. -/
def lowHeadroomWarning : String := "Low RAM headroom (<1024MB)."

/-- one iteration of the demand-summing loop: add the record's `ram_mb` and
`storage_mb` coercions to the running totals, propagating coercion failures. -/
def sumStep (acc : Int × Int) (r : CapabilityRecord) : Except String (Int × Int) :=
  match recordResourceMb r "ram_mb" with
  | .error e => .error e
  | .ok ram =>
      match recordResourceMb r "storage_mb" with
      | .error e => .error e
      | .ok sto => .ok (acc.1 + ram, acc.2 + sto)

/-- final result assembly of `validate_stack` from the available capacities
and the summed demand. -/
def mkValidationResult (strict_mode : Bool) (available_ram_mb available_storage_mb : Int)
    (sums : Int × Int) : ValidationResult :=
  let required_ram_mb := sums.1
  let required_storage_mb := sums.2
  let ram_ok : Bool := decide (available_ram_mb = 0) || decide (required_ram_mb ≤ available_ram_mb)
  let storage_ok : Bool :=
    decide (available_storage_mb = 0) || decide (required_storage_mb ≤ available_storage_mb)
  let headroom_ram_mb : Option Int :=
    if available_ram_mb ≠ 0 then some (available_ram_mb - required_ram_mb) else none
  let compatible := ram_ok && storage_ok
  let warnings : List String :=
    if compatible && strict_mode then
      match headroom_ram_mb with
      | some h => if h < 1024 then [lowHeadroomWarning] else []
      | none => []
    else []
  ⟨if strict_mode then compatible && warnings.isEmpty else compatible,
    ⟨required_ram_mb, if available_ram_mb ≠ 0 then some available_ram_mb else none,
      ram_ok, headroom_ram_mb⟩,
    ⟨required_storage_mb, if available_storage_mb ≠ 0 then some available_storage_mb else none,
      storage_ok⟩,
    warnings⟩

/-- `ResourceValidator.validate_stack`; every uncaught Python exception
(decode failure, `.get` on a non-mapping section, `int()` failure) propagates
as an `Except.error`. -/
def validate_stack (file : ConstraintsFile) (strict_mode : Bool)
    (capabilities : List CapabilityRecord) : Except String ValidationResult :=
  match load_constraints file with
  | .error e => .error e
  | .ok constraints =>
      match sectionAvailMb (sectionOf constraints "memory") with
      | .error e => .error e
      | .ok available_ram_mb =>
          match sectionAvailMb (sectionOf constraints "storage") with
          | .error e => .error e
          | .ok available_storage_mb =>
              match capabilities.foldlM sumStep ((0 : Int), (0 : Int)) with
              | .error e => .error e
              | .ok sums =>
                  .ok (mkValidationResult strict_mode available_ram_mb available_storage_mb sums)

/-! ## Request router (`router.py`)

The router is modelled up to (and excluding) the outbound HTTP call: `execute`
produces the routing decision (method, URL, JSON body) or the typed
`RoutingError` the Python code raises before any network traffic.  Python
`str.format` is modelled for the plain `\x7bname\x7d` placeholders the path
templates use, with `\x7b\x7b`/`\x7d\x7d` escapes; a hole that is empty,
all-digits (positional), or uses conversion/attribute/spec syntax (`!:.[]`) is
modelled as the uncaught-exception outcome `FmtErr.valueError`, since none of
those raise the `KeyError` the router catches. -/

/-- error outcomes of the `str.format` model. -/
inductive FmtErr where
  | missingKey (k : String)
  | valueError
deriving DecidableEq

/-- the literal character rendered by Python as a left brace. -/
def openBrace : Char := Char.ofNat 123

/-- the literal character rendered by Python as a right brace. -/
def closeBrace : Char := Char.ofNat 125

/-- characters that switch a format field into conversion/attribute/spec
syntax, none of which is modelled as a plain keyword lookup. -/
def holeSpecial (c : Char) : Bool :=
  c = ':' || c = '!' || c = '.' || c = '[' || c = ']'

/-- the dict `\x7bstr(k): v for k, v in params.items()\x7d`: built by insertion,
so a later entry whose stringified key collides overwrites the earlier one. -/
def fmtParams (ps : List (PyVal × PyVal)) : List (String × PyVal) :=
  ps.foldl (fun acc kv => dictSet acc (pyStr kv.1) kv.2) []

mutual

/-- scanning state of the `str.format` model outside a hole. -/
def fmtScan (ps : List (String × PyVal)) : List Char → Except FmtErr String
  | [] => .ok ""
  | c :: rest =>
      if c = closeBrace then
        match rest with
        | c2 :: rest2 =>
            if c2 = closeBrace then (fun s => closeBrace.toString ++ s) <$> fmtScan ps rest2
            else .error .valueError
        | [] => .error .valueError
      else if c = openBrace then
        match rest with
        | c2 :: rest2 =>
            if c2 = openBrace then (fun s => openBrace.toString ++ s) <$> fmtScan ps rest2
            else fmtHole ps [] (c2 :: rest2)
        | [] => .error .valueError
      else (fun s => c.toString ++ s) <$> fmtScan ps rest

/-- scanning state of the `str.format` model inside a hole, accumulating the
field name in reverse. -/
def fmtHole (ps : List (String × PyVal)) (acc : List Char) : List Char → Except FmtErr String
  | [] => .error .valueError
  | c :: rest =>
      if c = closeBrace then
        let name := String.mk acc.reverse
        if name = "" ∨ name.toList.all Char.isDigit then .error .valueError
        else
          match dictGet ps name with
          | some v => (fun s => pyStr v ++ s) <$> fmtScan ps rest
          | none => .error (.missingKey name)
      else if c = openBrace ∨ holeSpecial c then .error .valueError
      else fmtHole ps (c :: acc) rest

end

mutual

/-- plain-keyword placeholders of a template, in scan order, truncated at the
first point the `str.format` model stops treating the template as plain
`\x7bname\x7d` holes. -/
def holesScan : List Char → List String
  | [] => []
  | c :: rest =>
      if c = closeBrace then
        match rest with
        | c2 :: rest2 => if c2 = closeBrace then holesScan rest2 else []
        | [] => []
      else if c = openBrace then
        match rest with
        | c2 :: rest2 => if c2 = openBrace then holesScan rest2 else holesHole [] (c2 :: rest2)
        | [] => []
      else holesScan rest

/-- in-hole state of the placeholder collector. -/
def holesHole (acc : List Char) : List Char → List String
  | [] => []
  | c :: rest =>
      if c = closeBrace then
        let name := String.mk acc.reverse
        if name = "" ∨ name.toList.all Char.isDigit then []
        else name :: holesScan rest
      else if c = openBrace ∨ holeSpecial c then []
      else holesHole (c :: acc) rest

end

/-- placeholders of a path template referenced by the `str.format` model. -/
def holes (template : String) : List String := holesScan template.toList

/-- routing failure: `routing` is the typed `RoutingError` of `router.py`;
`pyError` models any other exception escaping `execute` uncaught. -/
inductive ExecError where
  | routing (code : String) (message : String) (details : List (String × PyVal))
  | pyError (message : String)

/-- outcome of `execute` up to the outbound call: HTTP method, target URL and
JSON body. -/
structure RoutePlan where
  method : String
  url : String
  body : PyVal

/-- message of the `NO_API` routing error. -/
def noApiMsg (name : String) : String :=
  "Capability " ++ squote ++ name ++ squote ++ " has no api.endpoint"

/-- message of the missing-type `INVALID` error. -/
def missingTypeMsg : String := "Missing " ++ squote ++ "type" ++ squote ++ " field"

/-- message of the empty-endpoint-name `INVALID` error. -/
def emptyEndpointMsg : String := "payload.endpoint must be a non-empty string"

/-- message of the unknown-endpoint `INVALID` error. -/
def unknownEndpointMsg (ename cname : String) : String :=
  "Unknown endpoint " ++ squote ++ ename ++ squote ++ " for capability " ++ squote ++ cname ++ squote

/-- message of the bad-params-shape `INVALID` error. -/
def paramsNotObjectMsg : String := "payload.params must be an object"

/-- message of the missing-path-param `INVALID` error. -/
def missingParamMsg : String := "Missing path param for endpoint"

/-- message of the retrieval-family `INVALID` error. -/
def retrievalMsg : String :=
  "Retrieval requests must provide payload.endpoint (preferred) or payload.path (legacy)"

/-- message of the `UNSUPPORTED` error. -/
def unsupportedMsg (t : String) : String := "Unsupported type " ++ squote ++ t ++ squote

/-- example shape carried by the retrieval-family `INVALID` error. -/
def retrievalExpectedDetails : List (String × PyVal) :=
  [("expected", .obj [(.str "payload", .obj [(.str "endpoint", .str "query"),
    (.str "params", .obj [(.str "collection", .str "<collection>")]),
    (.str "json", .obj [])])])]

/-- preferred endpoint-name routing branch of `execute` (payload is a mapping
containing `endpoint`). -/
def endpointRoute (record : CapabilityRecord) (pl : List (PyVal × PyVal)) :
    Except ExecError (String × String) :=
  let endpoint_name := pyStr (pyOr ((pyGet pl "endpoint").getD .null) (.str ""))
  if endpoint_name = "" then .error (.routing "INVALID" emptyEndpointMsg [])
  else
    match dictGet record.contract.endpoints endpoint_name with
    | none =>
        .error (.routing "INVALID" (unknownEndpointMsg endpoint_name record.contract.name)
          [("available_endpoints",
            .arr ((pySorted (record.contract.endpoints.map (fun kv => kv.1))).map .str))])
    | some espec =>
        match (pyGet pl "params").getD .null with
        | .null => .ok (espec.method, espec.path)
        | .obj ps =>
            if ps.isEmpty then .ok (espec.method, espec.path)
            else
              match fmtScan (fmtParams ps) espec.path.toList with
              | .ok p => .ok (espec.method, p)
              | .error (.missingKey m) =>
                  .error (.routing "INVALID" missingParamMsg
                    [("missing", .str (squote ++ m ++ squote)),
                     ("path_template", .str espec.path),
                     ("params", .obj ps)])
              | .error .valueError => .error (.pyError "ValueError: invalid format string")
        | _ => .error (.routing "INVALID" paramsNotObjectMsg [])

/-- legacy fallback branch of `execute` (no `payload.endpoint`). -/
def legacyRoute (service_type : String) (payload : PyVal) : Except ExecError (String × String) :=
  if service_type = "text-generation" then .ok ("POST", "/api/generate")
  else if service_type = "vector-search" ∨ service_type = "text-embeddings" ∨
      service_type = "embedding" then
    match payload with
    | .obj pl =>
        if pyHasKey pl "path" then .ok ("POST", pyStr ((pyGet pl "path").getD .null))
        else .error (.routing "INVALID" retrievalMsg retrievalExpectedDetails)
    | _ => .error (.routing "INVALID" retrievalMsg retrievalExpectedDetails)
  else .error (.routing "UNSUPPORTED" (unsupportedMsg service_type) [])

/-- default request body: the original request with `type` removed. -/
def defaultJsonBody (request_body : List (String × PyVal)) : PyVal :=
  .obj ((request_body.filter (fun kv => kv.1 ≠ "type")).map (fun kv => (.str kv.1, kv.2)))

/-- body selection of `execute`: `payload.json` verbatim when present, also in
legacy `payload.path` mode, else the original request minus `type`. -/
def jsonBody (request_body : List (String × PyVal)) (payload : PyVal) : PyVal :=
  match payload with
  | .obj pl =>
      if pyHasKey pl "json" then (pyGet pl "json").getD .null
      else if pyHasKey pl "path" then (pyGet pl "json").getD .null
      else defaultJsonBody request_body
  | _ => defaultJsonBody request_body

/-- dispatch between the preferred endpoint-name branch (payload is a mapping
containing `endpoint`) and the legacy fallback. -/
def routeMethodPath (record : CapabilityRecord) (service_type : String) (payload : PyVal) :
    Except ExecError (String × String) :=
  match payload with
  | .obj pl =>
      if pyHasKey pl "endpoint" then endpointRoute record pl
      else legacyRoute service_type payload
  | _ => legacyRoute service_type payload

/-- `RequestRouter.execute` up to (and excluding) the outbound HTTP call. -/
def execute (record : CapabilityRecord) (request_body : List (String × PyVal)) :
    Except ExecError RoutePlan :=
  match record.api_endpoint with
  | none => .error (.routing "NO_API" (noApiMsg record.contract.name) [])
  | some api_endpoint =>
      let service_type := pyStr ((dictGet request_body "type").getD (.str ""))
      let payload := (dictGet request_body "payload").getD .null
      if service_type = "" then .error (.routing "INVALID" missingTypeMsg [])
      else
        match routeMethodPath record service_type payload with
        | .error e => .error e
        | .ok mp => .ok ⟨mp.1, api_endpoint ++ mp.2, jsonBody request_body payload⟩

/-! ## Helper lemmas -/

/-- success test on an `Except` value. -/
def isOkB {ε α : Type} (e : Except ε α) : Bool :=
  match e with
  | .ok _ => true
  | .error _ => false

theorem fmt_missing_fuel : ∀ (n : Nat) (l : List Char), l.length ≤ n →
    ∀ ps : List (String × PyVal),
    ((∃ p ∈ holesScan l, dictGet ps p = none) →
      ∃ m ∈ holesScan l, dictGet ps m = none ∧ fmtScan ps l = .error (.missingKey m)) ∧
    (∀ acc, (∃ p ∈ holesHole acc l, dictGet ps p = none) →
      ∃ m ∈ holesHole acc l, dictGet ps m = none ∧ fmtHole ps acc l = .error (.missingKey m)) := by
  intro n
  induction n with
  | zero =>
      intro l hl ps
      have hnil : l = [] := List.length_eq_zero.mp (Nat.le_zero.mp hl)
      subst hnil
      constructor
      · intro h
        simp [holesScan] at h
      · intro acc h
        simp [holesHole] at h
  | succ n ih =>
      intro l hl ps
      cases l with
      | nil =>
          constructor
          · intro h
            simp [holesScan] at h
          · intro acc h
            simp [holesHole] at h
      | cons c rest =>
          have hrest : rest.length ≤ n := by
            simp only [List.length_cons] at hl
            omega
          have hbo : ¬ (openBrace = closeBrace) := by decide
          constructor
          · intro h
            by_cases hc : c = closeBrace
            · cases rest with
              | nil => simp [holesScan, hc] at h
              | cons c2 rest2 =>
                  by_cases hc2 : c2 = closeBrace
                  · have h2 : rest2.length ≤ n := by
                      simp only [List.length_cons] at hrest
                      omega
                    have hhs : holesScan (c :: c2 :: rest2) = holesScan rest2 := by
                      simp [holesScan, hc, hc2]
                    rw [hhs] at h ⊢
                    obtain ⟨m, hm, hnone, heq⟩ := (ih rest2 h2 ps).1 h
                    refine ⟨m, hm, hnone, ?_⟩
                    simp [fmtScan, hc, hc2, heq, Except.map]
                  · simp [holesScan, hc, hc2] at h
            · by_cases ho : c = openBrace
              · cases rest with
                | nil => simp [holesScan, hc, ho, hbo] at h
                | cons c2 rest2 =>
                    by_cases hc2 : c2 = openBrace
                    · have h2 : rest2.length ≤ n := by
                        simp only [List.length_cons] at hrest
                        omega
                      have hhs : holesScan (c :: c2 :: rest2) = holesScan rest2 := by
                        simp [holesScan, hc, ho, hc2, hbo]
                      rw [hhs] at h ⊢
                      obtain ⟨m, hm, hnone, heq⟩ := (ih rest2 h2 ps).1 h
                      refine ⟨m, hm, hnone, ?_⟩
                      simp [fmtScan, hc, ho, hc2, hbo, heq, Except.map]
                    · have hhs : holesScan (c :: c2 :: rest2) = holesHole [] (c2 :: rest2) := by
                        simp [holesScan, hc, ho, hc2, hbo]
                      rw [hhs] at h ⊢
                      obtain ⟨m, hm, hnone, heq⟩ := (ih (c2 :: rest2) hrest ps).2 [] h
                      refine ⟨m, hm, hnone, ?_⟩
                      simp [fmtScan, hc, ho, hc2, hbo, heq]
              · have hhs : holesScan (c :: rest) = holesScan rest := by
                  rw [holesScan.eq_def]
                  simp [hc, ho]
                rw [hhs] at h ⊢
                obtain ⟨m, hm, hnone, heq⟩ := (ih rest hrest ps).1 h
                refine ⟨m, hm, hnone, ?_⟩
                rw [fmtScan.eq_def]
                simp [hc, ho, heq, Except.map]
          · intro acc h
            by_cases hc : c = closeBrace
            · by_cases hbad : String.mk acc.reverse = "" ∨
                  (String.mk acc.reverse).toList.all Char.isDigit
              · have hempty : holesHole acc (c :: rest) = [] := by
                  simp only [holesHole]
                  rw [if_pos hc, if_pos hbad]
                rw [hempty] at h
                simp at h
              · have hhs : holesHole acc (c :: rest) =
                    String.mk acc.reverse :: holesScan rest := by
                  simp only [holesHole]
                  rw [if_pos hc, if_neg hbad]
                cases hdg : dictGet ps (String.mk acc.reverse) with
                | some v =>
                    rw [hhs] at h ⊢
                    obtain ⟨p, hp, hpnone⟩ := h
                    rcases List.mem_cons.mp hp with rfl | hp
                    · rw [hdg] at hpnone
                      cases hpnone
                    · obtain ⟨m, hm, hnone, heq⟩ := (ih rest hrest ps).1 ⟨p, hp, hpnone⟩
                      refine ⟨m, List.mem_cons_of_mem _ hm, hnone, ?_⟩
                      simp only [fmtHole]
                      rw [if_pos hc, if_neg hbad, hdg, heq]
                      simp [Except.map]
                | none =>
                    rw [hhs]
                    refine ⟨String.mk acc.reverse, List.mem_cons_self _ _, hdg, ?_⟩
                    simp only [fmtHole]
                    rw [if_pos hc, if_neg hbad, hdg]
            · by_cases ho : c = openBrace ∨ holeSpecial c
              · have hempty : holesHole acc (c :: rest) = [] := by
                  simp only [holesHole]
                  rw [if_neg hc, if_pos ho]
                rw [hempty] at h
                simp at h
              · have hhs : holesHole acc (c :: rest) = holesHole (c :: acc) rest := by
                  simp [holesHole, hc, ho]
                rw [hhs] at h ⊢
                obtain ⟨m, hm, hnone, heq⟩ := (ih rest hrest ps).2 (c :: acc) h
                refine ⟨m, hm, hnone, ?_⟩
                simp [fmtHole, hc, ho, heq]

/-- when a plain placeholder of the template lacks a matching parameter, the
`str.format` model fails with a `KeyError` on some such placeholder. -/
theorem fmtScan_missing (l : List Char) (ps : List (String × PyVal))
    (h : ∃ p ∈ holesScan l, dictGet ps p = none) :
    ∃ m ∈ holesScan l, dictGet ps m = none ∧ fmtScan ps l = .error (.missingKey m) :=
  (fmt_missing_fuel l.length l (le_refl _) ps).1 h

/-- record with a single `ram_mb` requirement, used in validator examples. -/
def ramRec (n : Int) : CapabilityRecord :=
  ⟨⟨"cap", "1", "", ["t"], none, [], [(.str "ram_mb", .num n)], .null⟩,
   some "http://x", some "/health", "unknown"⟩

/-- constraints file declaring `memory.available_mb` only. -/
def memFile (a : Int) : ConstraintsFile :=
  .wellFormed (.obj [(.str "memory", .obj [(.str "available_mb", .num a)])])

theorem recordResourceMb_ramRec_ram (n : Int) : recordResourceMb (ramRec n) "ram_mb" = .ok n := by
  by_cases h : n = 0 <;> simp [recordResourceMb, ramRec, pyGet, pyOr, pyTruthy, pyInt, h]

theorem recordResourceMb_ramRec_sto (n : Int) :
    recordResourceMb (ramRec n) "storage_mb" = .ok 0 := rfl

theorem foldlM_sumStep_ramRecs (rams : List Int) :
    ∀ acc : Int × Int, (rams.map ramRec).foldlM sumStep acc = .ok (acc.1 + rams.sum, acc.2) := by
  induction rams with
  | nil =>
      intro acc
      simp only [List.map_nil, List.foldlM_nil, List.sum_nil, add_zero]
      rfl
  | cons r rs ih =>
      intro acc
      rw [List.map_cons, List.foldlM_cons]
      have hstep : sumStep acc (ramRec r) = .ok (acc.1 + r, acc.2 + 0) := by
        rw [sumStep, recordResourceMb_ramRec_ram, recordResourceMb_ramRec_sto]
      rw [hstep]
      show (rs.map ramRec).foldlM sumStep (acc.1 + r, acc.2 + 0) = _
      rw [ih]
      simp [add_assoc]

theorem sectionAvailMb_memA (a : Int) :
    sectionAvailMb (.obj [(.str "available_mb", .num a)]) = .ok a := by
  by_cases h : a = 0 <;> simp [sectionAvailMb, pyGet, pyOr, pyTruthy, pyInt, h]

theorem foldlM_sumStep_ok (records : List CapabilityRecord)
    (h : ∀ r ∈ records,
      isOkB (recordResourceMb r "ram_mb") ∧ isOkB (recordResourceMb r "storage_mb")) :
    ∀ acc : Int × Int, isOkB (records.foldlM sumStep acc) := by
  induction records with
  | nil =>
      intro acc
      rfl
  | cons r rs ih =>
      intro acc
      obtain ⟨h1, h2⟩ := h r (List.mem_cons_self r rs)
      rw [List.foldlM_cons]
      cases e1 : recordResourceMb r "ram_mb" with
      | error e =>
          rw [e1] at h1
          simp [isOkB] at h1
      | ok ram =>
          cases e2 : recordResourceMb r "storage_mb" with
          | error e =>
              rw [e2] at h2
              simp [isOkB] at h2
          | ok sto =>
              have hstep : sumStep acc r = .ok (acc.1 + ram, acc.2 + sto) := by
                rw [sumStep, e1, e2]
              rw [hstep]
              exact ih (fun r' hr' => h r' (List.mem_cons_of_mem r hr')) _

theorem aliasStep_foldl (als : List (PyVal × PyVal)) :
    ∀ (acc : List (String × String)) (a c : String),
      dictGet (als.foldl aliasStep acc) a = some c →
      dictGet acc a = some c ∨ (a ≠ "" ∧ c ≠ "" ∧ (.str a, .str c) ∈ als) := by
  induction als with
  | nil =>
      intro acc a c h
      exact Or.inl h
  | cons kv rest ih =>
      intro acc a c h
      rw [List.foldl_cons] at h
      rcases ih (aliasStep acc kv) a c h with h' | ⟨ha, hc, hm⟩
      · rcases kv with ⟨k1, v1⟩
        cases k1 with
        | str ali =>
            cases v1 with
            | str canon =>
                by_cases hne : ali ≠ "" ∧ canon ≠ ""
                · have hset : aliasStep acc (.str ali, .str canon) = dictSet acc ali canon := by
                    unfold aliasStep
                    exact if_pos hne
                  rw [hset, dictGet_dictSet] at h'
                  by_cases hak : ali = a
                  · rw [if_pos hak] at h'
                    injection h' with h''
                    subst hak
                    subst h''
                    exact Or.inr ⟨hne.1, hne.2, List.mem_cons_self _ _⟩
                  · rw [if_neg hak] at h'
                    exact Or.inl h'
                · have hset : aliasStep acc (.str ali, .str canon) = acc := by
                    unfold aliasStep
                    exact if_neg hne
                  rw [hset] at h'
                  exact Or.inl h'
            | null => exact Or.inl h'
            | bool b => exact Or.inl h'
            | num m => exact Or.inl h'
            | arr xs => exact Or.inl h'
            | obj kvs2 => exact Or.inl h'
        | null => exact Or.inl h'
        | bool b => exact Or.inl h'
        | num m => exact Or.inl h'
        | arr xs => exact Or.inl h'
        | obj kvs2 => exact Or.inl h'
      · exact Or.inr ⟨ha, hc, List.mem_cons_of_mem kv hm⟩

theorem capStep_foldl (cs : List (PyVal × PyVal)) :
    ∀ (acc : List (String × CapabilityOverride)) (nm : String) (o : CapabilityOverride),
      dictGet (cs.foldl capStep acc) nm = some o →
      dictGet acc nm = some o ∨
        ∃ value, (.str nm, .obj value) ∈ cs ∧
          o = ⟨(pyGet value "endpoint").getD .null, (pyGet value "health_check").getD .null⟩ := by
  induction cs with
  | nil =>
      intro acc nm o h
      exact Or.inl h
  | cons kv rest ih =>
      intro acc nm o h
      rw [List.foldl_cons] at h
      rcases ih (capStep acc kv) nm o h with h' | ⟨value, hm, ho⟩
      · rcases kv with ⟨k1, v1⟩
        cases k1 with
        | str nm0 =>
            cases v1 with
            | obj value =>
                have hset : capStep acc (.str nm0, .obj value) = dictSet acc nm0
                    ⟨(pyGet value "endpoint").getD .null,
                     (pyGet value "health_check").getD .null⟩ := rfl
                rw [hset, dictGet_dictSet] at h'
                by_cases hk : nm0 = nm
                · rw [if_pos hk] at h'
                  injection h' with h''
                  subst hk
                  exact Or.inr ⟨value, List.mem_cons_self _ _, h''.symm⟩
                · rw [if_neg hk] at h'
                  exact Or.inl h'
            | null => exact Or.inl h'
            | bool b => exact Or.inl h'
            | num m => exact Or.inl h'
            | str s => exact Or.inl h'
            | arr xs => exact Or.inl h'
        | null => exact Or.inl h'
        | bool b => exact Or.inl h'
        | num m => exact Or.inl h'
        | arr xs => exact Or.inl h'
        | obj kvs2 => exact Or.inl h'
      · exact Or.inr ⟨value, List.mem_cons_of_mem kv hm, ho⟩

theorem isSome_endpointStep (acc : List (String × CapabilityEndpoint)) (kv : PyVal × PyVal)
    (ename : String) (h : (dictGet acc ename).isSome) :
    (dictGet (endpointStep acc kv) ename).isSome := by
  rcases kv with ⟨k1, v1⟩
  cases k1 with
  | str s =>
      cases v1 with
      | obj skvs =>
          simp only [endpointStep]
          by_cases hp : asStr ((pyGet skvs "path").getD .null) "" ≠ ""
          · rw [if_pos hp, dictGet_dictSet]
            by_cases hk : s = ename
            · rw [if_pos hk]
              rfl
            · rw [if_neg hk]
              exact h
          · rw [if_neg hp]
            exact h
      | null => exact h
      | bool b => exact h
      | num m => exact h
      | str s2 => exact h
      | arr xs => exact h
  | null => exact h
  | bool b => exact h
  | num m => exact h
  | arr xs => exact h
  | obj kvs2 => exact h

theorem endpointStep_foldl_isSome (eb : List (PyVal × PyVal)) :
    ∀ (acc : List (String × CapabilityEndpoint)) (ename : String),
      (dictGet (eb.foldl endpointStep acc) ename).isSome ↔
        (dictGet acc ename).isSome ∨
          ∃ kv ∈ eb, kv.1 = .str ename ∧
            ∃ skvs, kv.2 = .obj skvs ∧ asStr ((pyGet skvs "path").getD .null) "" ≠ "" := by
  induction eb with
  | nil =>
      intro acc ename
      simp
  | cons kv rest ih =>
      intro acc ename
      rw [List.foldl_cons, ih]
      constructor
      · rintro (hs | ⟨kv', hkv', hprops⟩)
        · rcases kv with ⟨k1, v1⟩
          cases k1 with
          | str s =>
              cases v1 with
              | obj skvs =>
                  revert hs
                  simp only [endpointStep]
                  by_cases hp : asStr ((pyGet skvs "path").getD .null) "" ≠ ""
                  · rw [if_pos hp, dictGet_dictSet]
                    by_cases hk : s = ename
                    · intro _
                      exact Or.inr ⟨(.str s, .obj skvs), List.mem_cons_self _ _,
                        by rw [hk], skvs, rfl, hp⟩
                    · rw [if_neg hk]
                      intro hs
                      exact Or.inl hs
                  · rw [if_neg hp]
                    intro hs
                    exact Or.inl hs
              | null => exact Or.inl hs
              | bool b => exact Or.inl hs
              | num m => exact Or.inl hs
              | str s2 => exact Or.inl hs
              | arr xs => exact Or.inl hs
          | null => exact Or.inl hs
          | bool b => exact Or.inl hs
          | num m => exact Or.inl hs
          | arr xs => exact Or.inl hs
          | obj kvs2 => exact Or.inl hs
        · exact Or.inr ⟨kv', List.mem_cons_of_mem kv hkv', hprops⟩
      · rintro (hs | ⟨kv', hkv', hk1, skvs, hv, hpath⟩)
        · exact Or.inl (isSome_endpointStep acc kv ename hs)
        · rcases List.mem_cons.mp hkv' with rfl | hkv'
          · refine Or.inl ?_
            rcases kv' with ⟨k1, v1⟩
            simp only at hk1 hv
            subst hk1
            subst hv
            simp only [endpointStep]
            rw [if_pos hpath, dictGet_dictSet, if_pos rfl]
            rfl
          · exact Or.inr ⟨kv', hkv', hk1, skvs, hv, hpath⟩

/-! ## Claim theorems -/

/-- record-side success condition of the demand-summing loop: both resource
coercions of the record succeed. -/
def recordResOkB (r : CapabilityRecord) : Bool :=
  isOkB (recordResourceMb r "ram_mb") && isOkB (recordResourceMb r "storage_mb")

/-- constraints-side success condition: both capacity sections coerce. -/
def constraintsOkB (doc : PyVal) : Bool :=
  isOkB (sectionAvailMb (sectionOf doc "memory")) &&
    isOkB (sectionAvailMb (sectionOf doc "storage"))

theorem validate_stack_eq (file : ConstraintsFile) (strict : Bool)
    (records : List CapabilityRecord) (doc : PyVal) (a1 a2 : Int) (sums : Int × Int)
    (hload : load_constraints file = .ok doc)
    (hm : sectionAvailMb (sectionOf doc "memory") = .ok a1)
    (hs : sectionAvailMb (sectionOf doc "storage") = .ok a2)
    (hf : records.foldlM sumStep ((0 : Int), (0 : Int)) = .ok sums) :
    validate_stack file strict records = .ok (mkValidationResult strict a1 a2 sums) := by
  unfold validate_stack
  simp only [hload, hm, hs, hf]

theorem validate_stack_ok_of (file : ConstraintsFile) (doc : PyVal)
    (hload : load_constraints file = .ok doc) (hdoc : constraintsOkB doc)
    (strict : Bool) (records : List CapabilityRecord)
    (hrec : ∀ r ∈ records, recordResOkB r) :
    isOkB (validate_stack file strict records) := by
  unfold constraintsOkB at hdoc
  rw [Bool.and_eq_true] at hdoc
  obtain ⟨hm, hs⟩ := hdoc
  cases em : sectionAvailMb (sectionOf doc "memory") with
  | error e =>
      rw [em] at hm
      simp [isOkB] at hm
  | ok a1 =>
      cases es : sectionAvailMb (sectionOf doc "storage") with
      | error e =>
          rw [es] at hs
          simp [isOkB] at hs
      | ok a2 =>
          have hfold := foldlM_sumStep_ok records (fun r hr => by
            have hx := hrec r hr
            unfold recordResOkB at hx
            rw [Bool.and_eq_true] at hx
            exact hx) ((0 : Int), (0 : Int))
          cases ef : records.foldlM sumStep ((0 : Int), (0 : Int)) with
          | error e =>
              rw [ef] at hfold
              simp [isOkB] at hfold
          | ok sums =>
              rw [validate_stack_eq file strict records doc a1 a2 sums hload em es ef]
              rfl

/-- C1: counterexample — a constraints file that exists but holds malformed
JSON makes `load_constraints` raise a decode error, which propagates out of
`validate_stack` as well, instead of degrading to "no constraint". -/
theorem C1_counterexample :
    load_constraints .malformed = .error "json.decoder.JSONDecodeError: Expecting value" ∧
    validate_stack .malformed true [] = .error "json.decoder.JSONDecodeError: Expecting value" :=
  ⟨rfl, rfl⟩

/-- C1 (amended): an absent constraints file degrades to "no constraint" and
`validate_stack` returns a result (whenever the per-record resource coercions
succeed); a well-formed document whose capacity sections coerce also yields a
result; but a file holding malformed JSON makes `load_constraints`, and hence
`validate_stack`, raise rather than degrade. -/
theorem C1_validator_never_raises :
    (∀ (strict : Bool) (records : List CapabilityRecord), (∀ r ∈ records, recordResOkB r) →
      isOkB (validate_stack .absent strict records)) ∧
    (∀ (doc : PyVal) (strict : Bool) (records : List CapabilityRecord),
      constraintsOkB doc → (∀ r ∈ records, recordResOkB r) →
      isOkB (validate_stack (.wellFormed doc) strict records)) ∧
    (∀ (strict : Bool) (records : List CapabilityRecord),
      isOkB (validate_stack .malformed strict records) = false) := by
  refine ⟨?_, ?_, ?_⟩
  · intro strict records hrec
    exact validate_stack_ok_of .absent (.obj []) rfl rfl strict records hrec
  · intro doc strict records hdoc hrec
    exact validate_stack_ok_of (.wellFormed doc) doc rfl hdoc strict records hrec
  · intro strict records
    rfl

/-- C1 witness: the amended theorem applied at a concrete Pi-like constraints
document and a one-record stack. -/
theorem C1_witness :
    isOkB (validate_stack
      (.wellFormed (.obj [(.str "memory", .obj [(.str "available_mb", .num 8000)])]))
      true [ramRec 7200]) :=
  C1_validator_never_raises.2.1 (.obj [(.str "memory", .obj [(.str "available_mb", .num 8000)])])
    true [ramRec 7200] (by decide)
    (fun r hr => by
      rcases List.mem_singleton.mp hr with rfl
      decide)

/-- C2: counterexample — at required 7200 against available 8000 the warning
lists differ between modes: strict mode reports the low-headroom warning,
non-strict mode reports no warning at all (the warning is only appended when
strict mode is on), contradicting "in both modes the returned warnings list
has the same content". -/
theorem C2_counterexample :
    (validate_stack (memFile 8000) true [ramRec 7200]).map (fun res => res.warnings) =
      .ok [lowHeadroomWarning] ∧
    (validate_stack (memFile 8000) false [ramRec 7200]).map (fun res => res.warnings) =
      .ok [] :=
  ⟨rfl, rfl⟩

/-- C2 (amended): at required 7200 against available 8000 (`ram_ok` true,
headroom 800), the result is compatible=false with the low-headroom warning
under strict mode, and compatible=true with an empty warning list under
non-strict mode. -/
theorem C2_strict_mode_headroom :
    validate_stack (memFile 8000) true [ramRec 7200] =
      .ok ⟨false, ⟨7200, some 8000, true, some 800⟩, ⟨0, none, true⟩, [lowHeadroomWarning]⟩ ∧
    validate_stack (memFile 8000) false [ramRec 7200] =
      .ok ⟨true, ⟨7200, some 8000, true, some 800⟩, ⟨0, none, true⟩, []⟩ :=
  ⟨rfl, rfl⟩

/-- C6: `validate_stack` sums each record's `resources.ram_mb` into
`required_mb`; `ram_ok` holds iff the available value is zero or the demand
fits; headroom is available minus required when the available value is
non-zero; the concrete 6000+2000 stacks against 12000 and 6000 behave as
claimed. -/
theorem C6_resource_arithmetic :
    (∀ (rams : List Int) (a : Int),
      validate_stack (memFile a) false (rams.map ramRec) =
        .ok ⟨decide (a = 0) || decide (rams.sum ≤ a),
          ⟨rams.sum, if a = 0 then none else some a,
            decide (a = 0) || decide (rams.sum ≤ a),
            if a = 0 then none else some (a - rams.sum)⟩,
          ⟨0, none, true⟩, []⟩) ∧
    validate_stack (memFile 12000) false [ramRec 6000, ramRec 2000] =
      .ok ⟨true, ⟨8000, some 12000, true, some 4000⟩, ⟨0, none, true⟩, []⟩ ∧
    validate_stack (memFile 6000) false [ramRec 6000, ramRec 2000] =
      .ok ⟨false, ⟨8000, some 6000, false, some (-2000)⟩, ⟨0, none, true⟩, []⟩ := by
  refine ⟨?_, rfl, rfl⟩
  intro rams a
  have hmem : sectionAvailMb (sectionOf
      (.obj [(.str "memory", .obj [(.str "available_mb", .num a)])]) "memory") = .ok a := by
    rw [show sectionOf (.obj [(.str "memory", .obj [(.str "available_mb", .num a)])]) "memory" =
        .obj [(.str "available_mb", .num a)] from rfl]
    exact sectionAvailMb_memA a
  have hsto : sectionAvailMb (sectionOf
      (.obj [(.str "memory", .obj [(.str "available_mb", .num a)])]) "storage") = .ok 0 := rfl
  have hsum := foldlM_sumStep_ramRecs rams ((0 : Int), (0 : Int))
  rw [validate_stack_eq (memFile a) false (rams.map ramRec)
    (.obj [(.str "memory", .obj [(.str "available_mb", .num a)])]) a 0
    ((0 : Int) + rams.sum, (0 : Int)) rfl hmem hsto hsum]
  unfold mkValidationResult
  by_cases ha : a = 0
  · simp [ha]
  · simp [ha, ite_not]

theorem parseAliases_some (v : Option PyVal) (a c : String)
    (h : dictGet (parseAliases v) a = some c) :
    a ≠ "" ∧ c ≠ "" ∧ ∃ als, v = some (.obj als) ∧ (.str a, .str c) ∈ als := by
  match v with
  | none => simp [parseAliases, dictGet] at h
  | some (.obj als) =>
      rcases aliasStep_foldl als [] a c h with h' | ⟨ha, hc, hm⟩
      · simp [dictGet] at h'
      · exact ⟨ha, hc, als, rfl, hm⟩
  | some .null => simp [parseAliases, dictGet] at h
  | some (.bool b) => simp [parseAliases, dictGet] at h
  | some (.num n) => simp [parseAliases, dictGet] at h
  | some (.str s) => simp [parseAliases, dictGet] at h
  | some (.arr xs) => simp [parseAliases, dictGet] at h

theorem parseCapOverrides_some (v : Option PyVal) (nm : String) (o : CapabilityOverride)
    (h : dictGet (parseCapOverrides v) nm = some o) :
    ∃ cs, v = some (.obj cs) ∧ ∃ value, (.str nm, .obj value) ∈ cs ∧
      o = ⟨(pyGet value "endpoint").getD .null, (pyGet value "health_check").getD .null⟩ := by
  match v with
  | none => simp [parseCapOverrides, dictGet] at h
  | some (.obj cs) =>
      rcases capStep_foldl cs [] nm o h with h' | ⟨value, hm, ho⟩
      · simp [dictGet] at h'
      · exact ⟨cs, rfl, value, hm, ho⟩
  | some .null => simp [parseCapOverrides, dictGet] at h
  | some (.bool b) => simp [parseCapOverrides, dictGet] at h
  | some (.num n) => simp [parseCapOverrides, dictGet] at h
  | some (.str s) => simp [parseCapOverrides, dictGet] at h
  | some (.arr xs) => simp [parseCapOverrides, dictGet] at h

/-- C3: counterexample — a file whose content is not well-formed YAML makes
`load_overrides` raise rather than return the empty overrides, contradicting
"never raises for any path or file content". -/
theorem C3_counterexample :
    load_overrides .badYaml = .error "yaml.YAMLError: could not parse overrides file" := rfl

/-- C3 (amended): `load_overrides` returns the empty overrides when the path
is absent, the file is missing, or the parsed content is not a mapping, and
never raises on any parsed content; but a file whose YAML parsing itself
fails raises.  Every accepted alias entry comes from a `provides_aliases`
entry with non-empty string key and value, and every accepted capability
override comes from a `capabilities` entry with string key and mapping value,
its `endpoint`/`health_check` taken as-is. -/
theorem C3_overrides_loading :
    (load_overrides .noPath = .ok emptyOverrides) ∧
    (load_overrides .fileMissing = .ok emptyOverrides) ∧
    (∀ v : PyVal, (match v with | .obj _ => False | _ => True) →
      load_overrides (.parsed v) = .ok emptyOverrides) ∧
    (∀ kvs : List (PyVal × PyVal), isOkB (load_overrides (.parsed (.obj kvs)))) ∧
    (∀ (kvs : List (PyVal × PyVal)) (ov : Overrides),
      load_overrides (.parsed (.obj kvs)) = .ok ov →
      (∀ a c, dictGet ov.provides_aliases a = some c →
        a ≠ "" ∧ c ≠ "" ∧ ∃ als, pyGet kvs "provides_aliases" = some (.obj als) ∧
          (.str a, .str c) ∈ als) ∧
      (∀ nm o, dictGet ov.capabilities nm = some o →
        ∃ cs, pyGet kvs "capabilities" = some (.obj cs) ∧
          ∃ value, (.str nm, .obj value) ∈ cs ∧
            o = ⟨(pyGet value "endpoint").getD .null,
                 (pyGet value "health_check").getD .null⟩)) := by
  refine ⟨rfl, rfl, ?_, ?_, ?_⟩
  · intro v hv
    cases v with
    | obj kvs => exact absurd hv (by simp)
    | null => rfl
    | bool b => rfl
    | num n => rfl
    | str s => rfl
    | arr xs => rfl
  · intro kvs
    rfl
  · intro kvs ov hok
    have hov : ov = ⟨parseCapOverrides (pyGet kvs "capabilities"),
        parseAliases (pyGet kvs "provides_aliases")⟩ := by
      have hx : load_overrides (.parsed (.obj kvs)) =
          .ok ⟨parseCapOverrides (pyGet kvs "capabilities"),
               parseAliases (pyGet kvs "provides_aliases")⟩ := rfl
      rw [hx] at hok
      injection hok with h'
      exact h'.symm
    subst hov
    constructor
    · intro a c h
      exact parseAliases_some _ a c h
    · intro nm o h
      exact parseCapOverrides_some _ nm o h

/-- C3 witness: the amended theorem applied at a non-mapping document and at a
concrete overrides document with one alias and one capability override. -/
theorem C3_witness :
    load_overrides (.parsed (.num 5)) = .ok emptyOverrides ∧
    ("a" ≠ "" ∧ "c" ≠ "" ∧
      ∃ als, pyGet [(.str "provides_aliases", .obj [(.str "a", .str "c")])] "provides_aliases" =
        some (.obj als) ∧ (.str "a", .str "c") ∈ als) :=
  ⟨C3_overrides_loading.2.2.1 (.num 5) trivial,
   (C3_overrides_loading.2.2.2.2 [(.str "provides_aliases", .obj [(.str "a", .str "c")])]
      ⟨[], [("a", "c")]⟩ rfl).1 "a" "c" rfl⟩

theorem parse_contract_endpoints (kvs : List (PyVal × PyVal)) (c : CapabilityContract)
    (h : parse_contract (.obj kvs) = .ok c) :
    c.endpoints = parseEndpoints (pyGet kvs "endpoints") := by
  simp only [parse_contract] at h
  by_cases hcond : asStr ((pyGet kvs "name").getD .null) "" = "" ∨
      asStr ((pyGet kvs "version").getD .null) "" = "" ∨
      parseProvides ((pyGet kvs "provides").getD .null) = []
  · rw [if_pos hcond] at h
    cases h
  · rw [if_neg hcond] at h
    injection h with h'
    rw [← h']

/-- example document for the contract parser: mandatory fields present, one
endpoints entry lacking a `path` and one well-formed entry. -/
def doc5 : List (PyVal × PyVal) :=
  [(.str "name", .str "cap-a"), (.str "version", .str "1.0"),
   (.str "provides", .arr [.str "t"]),
   (.str "endpoints", .obj [(.str "bad", .obj [(.str "method", .str "get")]),
     (.str "good", .obj [(.str "method", .str "get"), (.str "path", .str "/x")])])]

/-- the contract produced from `doc5`: the pathless `bad` entry is absent. -/
def contract5 : CapabilityContract :=
  ⟨"cap-a", "1.0", "", ["t"], none, [("good", ⟨"GET", "/x"⟩)], [], .obj doc5⟩

/-- C5: `parse_contract` rejects a mapping document exactly when `name`,
`version` or `provides` is empty after coercion; otherwise it succeeds, and an
endpoints entry is present in the result iff the `endpoints` block holds an
entry under that name with a mapping value and a non-empty coerced `path` —
so a pathless entry is silently absent. -/
theorem C5_parser_rejection :
    (∀ kvs : List (PyVal × PyVal),
      parse_contract (.obj kvs) = .error invalidContractMsg ↔
        (asStr ((pyGet kvs "name").getD .null) "" = "" ∨
         asStr ((pyGet kvs "version").getD .null) "" = "" ∨
         parseProvides ((pyGet kvs "provides").getD .null) = [])) ∧
    (∀ kvs : List (PyVal × PyVal),
      ¬(asStr ((pyGet kvs "name").getD .null) "" = "" ∨
        asStr ((pyGet kvs "version").getD .null) "" = "" ∨
        parseProvides ((pyGet kvs "provides").getD .null) = []) →
      isOkB (parse_contract (.obj kvs))) ∧
    (∀ (kvs : List (PyVal × PyVal)) (c : CapabilityContract),
      parse_contract (.obj kvs) = .ok c →
      ∀ ename : String, (dictGet c.endpoints ename).isSome ↔
        ∃ eb, pyGet kvs "endpoints" = some (.obj eb) ∧
          ∃ kv ∈ eb, kv.1 = .str ename ∧
            ∃ skvs, kv.2 = .obj skvs ∧ asStr ((pyGet skvs "path").getD .null) "" ≠ "") := by
  refine ⟨?_, ?_, ?_⟩
  · intro kvs
    simp only [parse_contract]
    by_cases hcond : asStr ((pyGet kvs "name").getD .null) "" = "" ∨
        asStr ((pyGet kvs "version").getD .null) "" = "" ∨
        parseProvides ((pyGet kvs "provides").getD .null) = []
    · rw [if_pos hcond]
      simp [hcond]
    · rw [if_neg hcond]
      simp [hcond]
  · intro kvs hcond
    simp only [parse_contract]
    rw [if_neg hcond]
    rfl
  · intro kvs c hok ename
    rw [parse_contract_endpoints kvs c hok]
    match he : pyGet kvs "endpoints" with
    | none => simp [parseEndpoints, dictGet]
    | some (.obj eb) =>
        rw [show parseEndpoints (some (.obj eb)) = eb.foldl endpointStep [] from rfl]
        rw [endpointStep_foldl_isSome eb [] ename]
        simp [dictGet]
    | some .null => simp [parseEndpoints, dictGet]
    | some (.bool b) => simp [parseEndpoints, dictGet]
    | some (.num n) => simp [parseEndpoints, dictGet]
    | some (.str s) => simp [parseEndpoints, dictGet]
    | some (.arr xs) => simp [parseEndpoints, dictGet]

/-- C5 witness: the theorem applied at `doc5`, whose `bad` endpoints entry has
no `path`: parsing succeeds and the entry is absent from the result. -/
theorem C5_witness :
    parse_contract (.obj doc5) = .ok contract5 ∧
    dictGet contract5.endpoints "bad" = none ∧
    ((dictGet contract5.endpoints "bad").isSome ↔
      ∃ eb, pyGet doc5 "endpoints" = some (.obj eb) ∧
        ∃ kv ∈ eb, kv.1 = .str "bad" ∧
          ∃ skvs, kv.2 = .obj skvs ∧ asStr ((pyGet skvs "path").getD .null) "" ≠ "") :=
  ⟨by rfl, rfl, C5_parser_rejection.2.2 doc5 contract5 (by rfl) "bad"⟩

theorem mergedProviders_records_isSome (ov : Overrides) (files : List (Except String PyVal))
    (t n : String) (hn : n ∈ mergedProviders ov (load ov files) t) :
    (dictGet (load ov files).records_by_name n).isSome := by
  rcases (mem_mergedProviders ov (load ov files) t n).mp hn with h | h
  · obtain ⟨c, hc, hcn, -⟩ := (mem_load_providers ov files t n).mp h
    exact (load_records_isSome ov files n).mpr ⟨c, hc, hcn⟩
  · obtain ⟨c, hc, hcn, -⟩ := (mem_load_providers ov files (normalizeType ov t) n).mp h
    exact (load_records_isSome ov files n).mpr ⟨c, hc, hcn⟩

/-- contract document: `a-cap` providing `"t"`. -/
def docA : Except String PyVal :=
  .ok (.obj [(.str "name", .str "a-cap"), (.str "version", .str "1"),
    (.str "provides", .arr [.str "t"])])

/-- contract document: `b-cap` providing `"t"`. -/
def docB : Except String PyVal :=
  .ok (.obj [(.str "name", .str "b-cap"), (.str "version", .str "1"),
    (.str "provides", .arr [.str "t"])])

/-- registry snapshot over `b-cap` and `a-cap`, scanned in that order. -/
def stBA : RegistryState := load emptyOverrides [docB, docA]

/-- the record the registry builds for `a-cap`. -/
def recACap : CapabilityRecord :=
  ⟨⟨"a-cap", "1", "", ["t"], none, [], [],
    .obj [(.str "name", .str "a-cap"), (.str "version", .str "1"),
      (.str "provides", .arr [.str "t"])]⟩, none, none, "unknown"⟩

/-- C8: on every loaded snapshot, `resolve_provider` returns none exactly when
the merged literal+normalized provider list is empty, and otherwise returns
the record stored under the lexicographically smallest provider name of that
merged list. -/
theorem C8_deterministic_resolution (ov : Overrides) (files : List (Except String PyVal))
    (t : String) :
    (resolve_provider ov (load ov files) t = none ↔
      mergedProviders ov (load ov files) t = []) ∧
    (∀ r, resolve_provider ov (load ov files) t = some r →
      ∃ n, dictGet (load ov files).records_by_name n = some r ∧
        n ∈ mergedProviders ov (load ov files) t ∧
        ∀ m ∈ mergedProviders ov (load ov files) t, n ≤ m) := by
  constructor
  · constructor
    · intro hres
      cases hm : mergedProviders ov (load ov files) t with
      | nil => rfl
      | cons n rest =>
          simp only [resolve_provider, hm] at hres
          have hsome := mergedProviders_records_isSome ov files t n
            (by rw [hm]; exact List.mem_cons_self n rest)
          rw [hres] at hsome
          simp at hsome
    · intro hm
      simp only [resolve_provider, hm]
  · intro r hres
    cases hm : mergedProviders ov (load ov files) t with
    | nil =>
        simp only [resolve_provider, hm] at hres
        cases hres
    | cons n rest =>
        simp only [resolve_provider, hm] at hres
        have hsorted := sorted_mergedProviders ov files t
        rw [hm] at hsorted
        refine ⟨n, hres, List.mem_cons_self n rest, ?_⟩
        intro m hmm
        exact head_min_of_sorted_lt hsorted m hmm

/-- C8 witness: with `b-cap` and `a-cap` both providing `"t"`, resolution
always picks `a-cap`, the lexicographically first provider. -/
theorem C8_witness :
    resolve_provider emptyOverrides stBA "t" = some recACap ∧
    ∃ n, dictGet stBA.records_by_name n = some recACap ∧
      n ∈ mergedProviders emptyOverrides stBA "t" ∧
      ∀ m ∈ mergedProviders emptyOverrides stBA "t", n ≤ m :=
  ⟨by rfl, (C8_deterministic_resolution emptyOverrides [docB, docA] "t").2 recACap (by rfl)⟩

/-- C10: after every completed load, each provider name in any provider list
is a key of the name index, every provider list is strictly sorted (hence
duplicate-free), and `resolve_provider` returns a record for every type whose
merged provider list is non-empty. -/
theorem C10_snapshot_invariant (ov : Overrides) (files : List (Except String PyVal)) :
    (∀ t l, dictGet (load ov files).providers_by_type t = some l →
      (∀ n ∈ l, (dictGet (load ov files).records_by_name n).isSome) ∧
        l.Sorted (· < ·) ∧ l.Nodup) ∧
    (∀ t, mergedProviders ov (load ov files) t ≠ [] →
      (resolve_provider ov (load ov files) t).isSome) := by
  constructor
  · intro t l hl
    have hsorted : l.Sorted (· < ·) := by
      have hx := sorted_load_providers ov files t
      rw [hl] at hx
      exact hx
    refine ⟨?_, hsorted, nodup_of_sorted_lt hsorted⟩
    intro n hn
    have hmem : n ∈ (dictGet (load ov files).providers_by_type t).getD [] := by
      rw [hl]
      exact hn
    obtain ⟨c, hc, hcn, -⟩ := (mem_load_providers ov files t n).mp hmem
    exact (load_records_isSome ov files n).mpr ⟨c, hc, hcn⟩
  · intro t hne
    cases hm : mergedProviders ov (load ov files) t with
    | nil => exact absurd hm hne
    | cons n rest =>
        simp only [resolve_provider, hm]
        exact mergedProviders_records_isSome ov files t n
          (by rw [hm]; exact List.mem_cons_self n rest)

/-- C10 witness: the invariant applied to the two-contract snapshot. -/
theorem C10_witness :
    ((∀ n ∈ ["a-cap", "b-cap"], (dictGet stBA.records_by_name n).isSome) ∧
      (["a-cap", "b-cap"] : List String).Sorted (· < ·) ∧
      (["a-cap", "b-cap"] : List String).Nodup) ∧
    (resolve_provider emptyOverrides stBA "t").isSome :=
  ⟨(C10_snapshot_invariant emptyOverrides [docB, docA]).1 "t" ["a-cap", "b-cap"] (by rfl),
   (C10_snapshot_invariant emptyOverrides [docB, docA]).2 "t" (by decide)⟩

/-- alias table with a two-step chain `W -> X -> Y`. -/
def ovChain : Overrides := ⟨[], [("W", "X"), ("X", "Y")]⟩

/-- contract document: `c` providing the alias type `"W"`. -/
def docW : Except String PyVal :=
  .ok (.obj [(.str "name", .str "c"), (.str "version", .str "1"),
    (.str "provides", .arr [.str "W"])])

/-- C7: counterexample — with the alias chain `W -> X -> Y` and one contract
providing `W`, the alias `X -> Y` is declared and `Y` is not an alias key,
yet `get_by_type("X")` and `get_by_type("Y")` return different provider
lists, because the record indexed under `X` (as the normalized form of `W`)
never reaches the `Y` index. -/
theorem C7_counterexample :
    dictGet ovChain.provides_aliases "X" = some "Y" ∧
    dictGet ovChain.provides_aliases "Y" = none ∧
    (get_by_type ovChain (load ovChain [docW]) "X").providers = ["c"] ∧
    (get_by_type ovChain (load ovChain [docW]) "Y").providers = [] :=
  ⟨rfl, rfl, by rfl, by rfl⟩

/-- C7 (amended): if `a -> y` is declared, `y` is not itself an alias key,
and `a` is not the canonical target of any alias, then `get_by_type(a)` and
`get_by_type(y)` return the same provider list on every loaded snapshot. -/
theorem C7_alias_symmetry (ov : Overrides) (files : List (Except String PyVal))
    (a y : String)
    (h1 : dictGet ov.provides_aliases a = some y)
    (h2 : dictGet ov.provides_aliases y = none)
    (h3 : ∀ e ∈ ov.provides_aliases, e.2 ≠ a) :
    (get_by_type ov (load ov files) a).providers =
      (get_by_type ov (load ov files) y).providers := by
  have hay : y ≠ a := h3 (a, y) (dictGet_mem h1)
  have hna : normalizeType ov a = y := by
    unfold normalizeType
    rw [h1]
    rfl
  have hny : normalizeType ov y = y := by
    unfold normalizeType
    rw [h2]
    rfl
  have hnorm_ne : ∀ p, normalizeType ov p ≠ a := by
    intro p hpa
    unfold normalizeType at hpa
    cases hp : dictGet ov.provides_aliases p with
    | some c' =>
        rw [hp] at hpa
        exact h3 (p, c') (dictGet_mem hp) hpa
    | none =>
        rw [hp] at hpa
        simp only [Option.getD_none] at hpa
        subst hpa
        rw [h1] at hp
        cases hp
  show mergedProviders ov (load ov files) a = mergedProviders ov (load ov files) y
  have hlhs : mergedProviders ov (load ov files) a =
      sortedDedupStr ((dictGet (load ov files).providers_by_type a).getD [] ++
        (dictGet (load ov files).providers_by_type y).getD []) := by
    unfold mergedProviders
    rw [hna, if_pos hay]
  have hrhs : mergedProviders ov (load ov files) y =
      (dictGet (load ov files).providers_by_type y).getD [] := by
    unfold mergedProviders
    rw [hny]
    simp
  rw [hlhs, hrhs]
  apply sorted_lt_eq_of_mem_iff
  · exact sorted_sortedDedupStr _
  · exact sorted_load_providers ov files y
  · intro m
    rw [mem_sortedDedupStr, List.mem_append]
    constructor
    · rintro (hm | hm)
      · obtain ⟨c, hc, hcn, p, hp, hpt⟩ := (mem_load_providers ov files a m).mp hm
        rcases hpt with rfl | hpt
        · exact (mem_load_providers ov files y m).mpr ⟨c, hc, hcn, p, hp, Or.inr hna⟩
        · exact absurd hpt (hnorm_ne p)
      · exact hm
    · intro hm
      exact Or.inr hm

/-- C7 witness: the amended theorem applied to a flat alias `ax -> cy` with
one provider of each spelling; both queries return the same list. -/
theorem C7_witness :
    (get_by_type (⟨[], [("ax", "cy")]⟩ : Overrides)
      (load ⟨[], [("ax", "cy")]⟩
        [.ok (.obj [(.str "name", .str "cap1"), (.str "version", .str "1"),
          (.str "provides", .arr [.str "ax"])]),
         .ok (.obj [(.str "name", .str "cap2"), (.str "version", .str "1"),
          (.str "provides", .arr [.str "cy"])])]) "ax").providers =
    (get_by_type (⟨[], [("ax", "cy")]⟩ : Overrides)
      (load ⟨[], [("ax", "cy")]⟩
        [.ok (.obj [(.str "name", .str "cap1"), (.str "version", .str "1"),
          (.str "provides", .arr [.str "ax"])]),
         .ok (.obj [(.str "name", .str "cap2"), (.str "version", .str "1"),
          (.str "provides", .arr [.str "cy"])])]) "cy").providers :=
  C7_alias_symmetry ⟨[], [("ax", "cy")]⟩ _ "ax" "cy" rfl rfl (by decide)

/-- record with one contract endpoint `get_item : GET /items/\x7bid\x7d`. -/
def rec4 : CapabilityRecord :=
  ⟨⟨"items", "1", "", ["t"], none, [("get_item", ⟨"GET", "/items/\x7bid\x7d"⟩)], [], .null⟩,
   some "http://svc", some "/health", "unknown"⟩

/-- request routing to `get_item` with an empty `params` map, omitting `id`. -/
def req4 : List (String × PyVal) :=
  [("type", .str "x"),
   ("payload", .obj [(.str "endpoint", .str "get_item"), (.str "params", .obj [])])]

/-- C4: counterexample — an `execute` request whose `params` map is present
but empty omits the `id` placeholder of `/items/\x7bid\x7d`, yet no `INVALID`
error is raised: formatting is skipped entirely (`if params:` is false for an
empty map) and the call proceeds with the literal unsubstituted template. -/
theorem C4_counterexample :
    execute rec4 req4 = .ok ⟨"GET", "http://svc/items/\x7bid\x7d",
      .obj [(.str "payload",
        .obj [(.str "endpoint", .str "get_item"), (.str "params", .obj [])])]⟩ := by rfl

/-- C4 (amended): when `execute` routes by `payload.endpoint` and the request
supplies a NON-EMPTY `params` map omitting a plain placeholder referenced by
the endpoint's path template, it fails with `INVALID`, with details naming the
missing key (as Python renders the `KeyError`), the path template, and the
supplied params. -/
theorem C4_missing_path_param (record : CapabilityRecord)
    (request_body : List (String × PyVal)) (api_ep t ename : String)
    (pl ps : List (PyVal × PyVal)) (espec : CapabilityEndpoint)
    (hapi : record.api_endpoint = some api_ep)
    (htype : dictGet request_body "type" = some (.str t)) (ht : t ≠ "")
    (hpayload : dictGet request_body "payload" = some (.obj pl))
    (hename : pyGet pl "endpoint" = some (.str ename)) (hne : ename ≠ "")
    (hspec : dictGet record.contract.endpoints ename = some espec)
    (hparams : pyGet pl "params" = some (.obj ps)) (hps : ps ≠ [])
    (hmiss : ∃ p ∈ holes espec.path, dictGet (fmtParams ps) p = none) :
    ∃ m ∈ holes espec.path, dictGet (fmtParams ps) m = none ∧
      execute record request_body = .error (.routing "INVALID" missingParamMsg
        [("missing", .str (squote ++ m ++ squote)),
         ("path_template", .str espec.path),
         ("params", .obj ps)]) := by
  obtain ⟨m, hm, hmnone, hfmt⟩ := fmtScan_missing espec.path.toList (fmtParams ps) hmiss
  refine ⟨m, hm, hmnone, ?_⟩
  have hroute : endpointRoute record pl = .error (.routing "INVALID" missingParamMsg
      [("missing", .str (squote ++ m ++ squote)),
       ("path_template", .str espec.path),
       ("params", .obj ps)]) := by
    unfold endpointRoute
    rw [hename]
    have htruthy : pyOr (Option.getD (some (.str ename)) .null) (.str "") = .str ename := by
      simp [pyOr, pyTruthy, hne]
    rw [htruthy]
    rw [show pyStr (.str ename) = ename from rfl]
    rw [if_neg hne, hspec, hparams]
    have hempty : ps.isEmpty = false := by
      cases ps with
      | nil => exact absurd rfl hps
      | cons p prest => rfl
    simp only [Option.getD_some, hempty, Bool.false_eq_true, if_false, hfmt]
  have hkey : pyHasKey pl "endpoint" = true := by
    simp [pyHasKey, hename]
  unfold execute
  rw [hapi]
  simp only [htype, hpayload, Option.getD_some, pyStr, routeMethodPath, hkey, ht, if_false,
    if_true, ite_true, ite_false, hroute]

/-- C4 witness: the amended theorem applied at the `get_item` record with
params `\x7bother: 1\x7d`, which omit `id`. -/
theorem C4_witness :
    ∃ m ∈ holes "/items/\x7bid\x7d",
      dictGet (fmtParams [(.str "other", .num 1)]) m = none ∧
      execute rec4 [("type", .str "x"),
        ("payload", .obj [(.str "endpoint", .str "get_item"),
          (.str "params", .obj [(.str "other", .num 1)])])] =
        .error (.routing "INVALID" missingParamMsg
          [("missing", .str (squote ++ m ++ squote)),
           ("path_template", .str "/items/\x7bid\x7d"),
           ("params", .obj [(.str "other", .num 1)])]) :=
  C4_missing_path_param rec4
    [("type", .str "x"),
     ("payload", .obj [(.str "endpoint", .str "get_item"),
       (.str "params", .obj [(.str "other", .num 1)])])]
    "http://svc" "x" "get_item"
    [(.str "endpoint", .str "get_item"), (.str "params", .obj [(.str "other", .num 1)])]
    [(.str "other", .num 1)] ⟨"GET", "/items/\x7bid\x7d"⟩
    rfl rfl (by decide) rfl rfl (by decide) rfl rfl (List.cons_ne_nil _ _)
    ⟨"id", by decide, rfl⟩

/-- C9: legacy fallback of `execute` (payload without `endpoint`):
`text-generation` routes to `/api/generate`; the retrieval-family types fail
with `INVALID` and the expected-shape example unless `payload.path` is
supplied, in which case that path is used; every other type fails with
`UNSUPPORTED`. -/
theorem C9_legacy_fallback (record : CapabilityRecord) (api_ep t : String) (pv : PyVal)
    (hapi : record.api_endpoint = some api_ep) (ht : t ≠ "")
    (hno : match pv with | .obj pl => pyHasKey pl "endpoint" = false | _ => True) :
    (t = "text-generation" →
      execute record [("type", .str t), ("payload", pv)] =
        .ok ⟨"POST", api_ep ++ "/api/generate",
          jsonBody [("type", .str t), ("payload", pv)] pv⟩) ∧
    ((t = "vector-search" ∨ t = "text-embeddings" ∨ t = "embedding") →
      (∀ pl, pv = .obj pl → pyHasKey pl "path" = false →
        execute record [("type", .str t), ("payload", pv)] =
          .error (.routing "INVALID" retrievalMsg retrievalExpectedDetails)) ∧
      ((match pv with | .obj _ => False | _ => True) →
        execute record [("type", .str t), ("payload", pv)] =
          .error (.routing "INVALID" retrievalMsg retrievalExpectedDetails)) ∧
      (∀ pl, pv = .obj pl → pyHasKey pl "path" = true →
        execute record [("type", .str t), ("payload", pv)] =
          .ok ⟨"POST", api_ep ++ pyStr ((pyGet pl "path").getD .null),
            jsonBody [("type", .str t), ("payload", pv)] pv⟩)) ∧
    (t ≠ "text-generation" → ¬(t = "vector-search" ∨ t = "text-embeddings" ∨ t = "embedding") →
      execute record [("type", .str t), ("payload", pv)] =
        .error (.routing "UNSUPPORTED" (unsupportedMsg t) [])) := by
  have hroute : routeMethodPath record t pv = legacyRoute t pv := by
    cases pv with
    | obj pl => simp [routeMethodPath, hno]
    | null => rfl
    | bool b => rfl
    | num n => rfl
    | str s => rfl
    | arr xs => rfl
  have htype : dictGet [("type", .str t), ("payload", pv)] "type" = some (.str t) := rfl
  have hpayload : dictGet [("type", .str t), ("payload", pv)] "payload" = some pv := rfl
  have hexec : execute record [("type", .str t), ("payload", pv)] =
      (match legacyRoute t pv with
       | .error e => .error e
       | .ok mp => .ok ⟨mp.1, api_ep ++ mp.2,
           jsonBody [("type", .str t), ("payload", pv)] pv⟩) := by
    unfold execute
    rw [hapi]
    simp only [htype, hpayload, Option.getD_some, pyStr, ht, if_false, ite_false, hroute]
  refine ⟨?_, ?_, ?_⟩
  · intro htg
    rw [hexec, show legacyRoute t pv = .ok ("POST", "/api/generate") from by
      simp [legacyRoute, htg]]
  · intro hret
    have hnt : t ≠ "text-generation" := by
      rcases hret with rfl | rfl | rfl <;> decide
    refine ⟨?_, ?_, ?_⟩
    · intro pl hpl hpath
      subst hpl
      rw [hexec, show legacyRoute t (.obj pl) =
          .error (.routing "INVALID" retrievalMsg retrievalExpectedDetails) from by
        simp [legacyRoute, hnt, hret, hpath]]
    · intro hobj
      rw [hexec]
      have hleg : legacyRoute t pv =
          .error (.routing "INVALID" retrievalMsg retrievalExpectedDetails) := by
        cases pv with
        | obj pl => exact absurd hobj (by simp)
        | null => simp [legacyRoute, hnt, hret]
        | bool b => simp [legacyRoute, hnt, hret]
        | num n => simp [legacyRoute, hnt, hret]
        | str s => simp [legacyRoute, hnt, hret]
        | arr xs => simp [legacyRoute, hnt, hret]
      rw [hleg]
    · intro pl hpl hpath
      subst hpl
      rw [hexec, show legacyRoute t (.obj pl) =
          .ok ("POST", pyStr ((pyGet pl "path").getD .null)) from by
        simp [legacyRoute, hnt, hret, hpath]]
  · intro hnt hnr
    rw [hexec, show legacyRoute t pv =
        .error (.routing "UNSUPPORTED" (unsupportedMsg t) []) from by
      simp [legacyRoute, hnt, hnr]]

/-- C9 witness: the theorem applied at the concrete record: a
`text-generation` request with no `payload.endpoint` routes to
`/api/generate`, and a pathless `vector-search` request fails with `INVALID`
carrying the expected-shape example. -/
theorem C9_witness :
    execute rec4 [("type", .str "text-generation"), ("payload", .null)] =
      .ok ⟨"POST", "http://svc/api/generate",
        jsonBody [("type", .str "text-generation"), ("payload", .null)] .null⟩ ∧
    execute rec4 [("type", .str "vector-search"), ("payload", .obj [])] =
      .error (.routing "INVALID" retrievalMsg retrievalExpectedDetails) :=
  ⟨(C9_legacy_fallback rec4 "http://svc" "text-generation" .null rfl (by decide) trivial).1 rfl,
   ((C9_legacy_fallback rec4 "http://svc" "vector-search" (.obj []) rfl (by decide) rfl).2.1
      (Or.inl rfl)).1 [] rfl rfl⟩

end Ezansi
